import Mathlib

/-!
Shallow embedding of the icad_tone_detection core (STFT grouping, the four
pattern detectors and the cascade orchestrator in `tone_detect`) over ℚ.
Python floats are modelled as exact rationals; `round(x, n)` is modelled as
round-half-up (no call site below ever hits a tie), and `statistics.median`
is modelled by sorting and taking the middle element (or the mean of the two
middle elements).
-/

namespace Icad

/-- A frequency group tuple `(start, end, duration, freqs)` as produced by
`FrequencyExtraction.match_frequencies`. -/
structure FreqGroup where
  start_s : ℚ
  end_s : ℚ
  duration_s : ℚ
  freqs : List ℚ
deriving DecidableEq, Repr, Inhabited

/-- Python's `round(x, digits)` (ties modelled half-up; never hit below). -/
def round_to (digits : ℕ) (x : ℚ) : ℚ := (round (x * (10 : ℚ) ^ digits) : ℤ) / (10 : ℚ) ^ digits

def round1 (x : ℚ) : ℚ := round_to 1 x

def round2 (x : ℚ) : ℚ := round_to 2 x

def round3 (x : ℚ) : ℚ := round_to 3 x

/-- `statistics.median`: sort ascending, take the middle element, or the mean
of the two middle ones. Callers in the source never pass an empty list; we
return 0 there. -/
def pymedian (xs : List ℚ) : ℚ :=
  let s := xs.insertionSort (· ≤ ·)
  let n := xs.length
  if n = 0 then 0
  else if n % 2 = 1 then s.getD (n / 2) 0
  else (s.getD (n / 2 - 1) 0 + s.getD (n / 2) 0) / 2

/-- `group_center` (tone_detection.py): median of the strictly positive
entries of the group's freq list, 0.0 if there are none. -/
def group_center (g : FreqGroup) : ℚ :=
  let fs := g.freqs.filter (fun f => decide (0 < f))
  if fs = [] then 0 else pymedian fs

/-- `group_is_stable` (tone_detection.py): at least two strictly positive
freqs, all within `bw_hz` of their median. -/
def group_is_stable (g : FreqGroup) (bw_hz : ℚ) : Bool :=
  let fs := g.freqs.filter (fun f => decide (0 < f))
  if fs.length < 2 then false
  else
    let med := pymedian fs
    fs.all (fun f => decide (|f - med| ≤ bw_hz))

/-- `separated_enough` (tone_detection.py). -/
def separated_enough (f1 f2 min_separation_hz : ℚ) : Bool :=
  if f1 ≤ 0 ∨ f2 ≤ 0 then false
  else decide (min_separation_hz ≤ |f1 - f2|)

/-- Python exception kinds visible in this library: the builtin exceptions the
detectors raise, plus the classes of exceptions.py. -/
inductive PyError where
  | valueError (msg : String)
  | typeError (msg : String)
  | audioLoadError (msg : String)
  | frequencyExtractionError (msg : String)
  | toneDetectionError (msg : String)
  | ffmpegNotFoundError (msg : String)
deriving DecidableEq, Repr

/-- The exception class names defined by exceptions.py. -/
def library_exception_names : List String :=
  ["AudioLoadError", "FrequencyExtractionError", "ToneDetectionError", "FFmpegNotFoundError"]

/-! ## Two-tone (Quick Call) detector -/

structure TwoToneParams where
  min_tone_a_length : ℚ := 7/10
  min_tone_b_length : ℚ := 27/10
  max_gap_between_a_b : ℚ := 7/20
  tone_bw_hz : ℚ := 25
  min_pair_separation_hz : ℚ := 40
deriving DecidableEq, Repr

structure TwoToneHit where
  tone_id : String
  detected : List ℚ
  tone_a_length : ℚ
  tone_b_length : ℚ
  start : ℚ
  end_s : ℚ
deriving DecidableEq, Repr

/-- The per-group acceptance test of `detect_two_tone_tones`: non-empty freq
list whose first entry is positive, and stable. -/
def twoTonePass (bw : ℚ) (g : FreqGroup) : Bool :=
  !g.freqs.isEmpty && decide (0 < g.freqs.headI) && group_is_stable g bw

/-- The body of the `for cur in frequency_matches` loop of
`detect_two_tone_tones`, with `last` the cached A candidate and `tid` the
number of hits emitted so far. -/
def twoToneScan (p : TwoToneParams) : Option FreqGroup → ℕ → List FreqGroup → List TwoToneHit
  | _, _, [] => []
  | last, tid, cur :: rest =>
    if ¬ twoTonePass p.tone_bw_hz cur then twoToneScan p last tid rest
    else
      let cur_dur := cur.end_s - cur.start_s
      match last with
      | none =>
        twoToneScan p (if p.min_tone_a_length ≤ cur_dur then some cur else none) tid rest
      | some la =>
        if ¬ twoTonePass p.tone_bw_hz la then
          twoToneScan p (if p.min_tone_a_length ≤ cur_dur then some cur else none) tid rest
        else
          let last_dur := la.end_s - la.start_s
          let gap := max 0 (cur.start_s - la.end_s)
          let fa := group_center la
          let fb := group_center cur
          if p.min_tone_a_length ≤ last_dur ∧ p.min_tone_b_length ≤ cur_dur ∧
              gap ≤ p.max_gap_between_a_b ∧
              separated_enough fa fb p.min_pair_separation_hz = true then
            { tone_id := "qc_" ++ toString (tid + 1),
              detected := [round1 fa, round1 fb],
              tone_a_length := round3 la.duration_s,
              tone_b_length := round3 cur.duration_s,
              start := la.start_s,
              end_s := cur.end_s } :: twoToneScan p none (tid + 1) rest
          else
            twoToneScan p (if p.min_tone_a_length ≤ cur_dur then some cur else none) tid rest

/-- `detect_two_tone_tones` (tone_detection.py): parameter validation raising
`ValueError`, then the A/B scan. -/
def detect_two_tone_tones (p : TwoToneParams) (frequency_matches : List FreqGroup) :
    Except PyError (List TwoToneHit) :=
  if p.min_tone_a_length ≤ 0 then .error (.valueError "min_tone_a_length must be > 0")
  else if p.min_tone_b_length ≤ 0 then .error (.valueError "min_tone_b_length must be > 0")
  else if p.max_gap_between_a_b < 0 then .error (.valueError "max_gap_between_a_b must be >= 0")
  else if p.tone_bw_hz ≤ 0 then .error (.valueError "tone_bw_hz must be > 0")
  else if p.min_pair_separation_hz ≤ 0 then
    .error (.valueError "min_pair_separation_hz must be > 0")
  else .ok (twoToneScan p none 0 frequency_matches)

/-! ## Long-tone detector -/

structure LongToneParams where
  min_duration : ℚ := 31/10
  tone_bw_hz : ℚ := 25
  min_freq_hz : ℚ := 200
deriving DecidableEq, Repr

structure LongToneHit where
  tone_id : String
  detected : ℚ
  start : ℚ
  end_s : ℚ
  length : ℚ
deriving DecidableEq, Repr

/-- The group loop of `detect_long_tones`; `count` is the number of hits
already collected (used for the tone id). -/
def longToneLoop (p : LongToneParams) (count : ℕ) : List FreqGroup → List LongToneHit
  | [] => []
  | g :: rest =>
    if g.freqs = [] then longToneLoop p count rest
    else if ¬ group_is_stable g p.tone_bw_hz then longToneLoop p count rest
    else
      let center := group_center g
      if center ≤ p.min_freq_hz then longToneLoop p count rest
      else if p.min_duration ≤ g.duration_s then
        { tone_id := "lt_" ++ toString (count + 1),
          detected := round1 center,
          start := g.start_s,
          end_s := g.end_s,
          length := g.duration_s } :: longToneLoop p (count + 1) rest
      else longToneLoop p count rest

/-- `detect_long_tones` (tone_detection.py). -/
def detect_long_tones (p : LongToneParams) (frequency_matches : List FreqGroup) :
    Except PyError (List LongToneHit) :=
  if p.min_duration ≤ 0 then .error (.valueError "min_duration must be > 0")
  else if p.tone_bw_hz ≤ 0 then .error (.valueError "tone_bw_hz must be > 0")
  else .ok (longToneLoop p 0 frequency_matches)

/-! ## Warble (hi-low) detector -/

structure WarbleParams where
  interval_length : ℚ
  min_alternations : ℕ
  tone_bw_hz : ℚ := 25
  min_pair_separation_hz : ℚ := 40
deriving DecidableEq, Repr

structure WarbleHit where
  tone_id : String
  detected : List ℚ
  start : ℚ
  end_s : ℚ
  length : ℚ
  alternations : ℕ
deriving DecidableEq, Repr

/-- The `close` helper local to `detect_warble_tones`. -/
def wclose (a b tol : ℚ) : Bool := decide (|a - b| ≤ tol)

/-- The inner `while` loop of `detect_warble_tones`: consume groups into the
current sequence until a break; returns the sequence, the allowed tones and
the unconsumed remainder (the breaking group is consumed). -/
def warbleScan (p : WarbleParams) (seq : List FreqGroup) (tones : List ℚ) :
    List FreqGroup → List FreqGroup × List ℚ × List FreqGroup
  | [] => (seq, tones, [])
  | g :: rest =>
    if g.freqs = [] ∨ g.freqs.headI ≤ 0 ∨ g.freqs.length < 2 then (seq, tones, rest)
    else if ¬ group_is_stable g p.tone_bw_hz then (seq, tones, rest)
    else
      let f := group_center g
      if seq = [] then warbleScan p [g] [f] rest
      else
        let la := seq.getLastD default
        if ¬ (g.start_s - la.end_s ≤ p.interval_length + 1/1000000) then (seq, tones, rest)
        else
          let f_last := group_center la
          if wclose f f_last p.tone_bw_hz then (seq, tones, rest)
          else if tones.length < 2 then
            if separated_enough tones.headI f p.min_pair_separation_hz then
              let tones2 := tones ++ [f]
              if ¬ tones2.any (fun ct => wclose f ct p.tone_bw_hz) then (seq, tones2, rest)
              else warbleScan p (seq ++ [g]) tones2 rest
            else (seq, tones, rest)
          else if ¬ tones.any (fun ct => wclose f ct p.tone_bw_hz) then (seq, tones, rest)
          else warbleScan p (seq ++ [g]) tones rest

/-- Sequence validation and reporting of `detect_warble_tones`: cluster the
run's group centers to the two allowed tones and report the cluster medians,
sorted ascending and rounded. -/
def mkWarbleHit (idx : ℕ) (seq : List FreqGroup) (tones : List ℚ) : WarbleHit :=
  let a := tones.headI
  let b := tones.getLastD 0
  let centers := seq.map group_center
  let lows := centers.filter (fun fc => decide (|fc - a| < |fc - b|))
  let highs := centers.filter (fun fc => ¬ decide (|fc - a| < |fc - b|))
  let d0 := if lows = [] then a else pymedian lows
  let d1 := if highs = [] then b else pymedian highs
  { tone_id := "hl_" ++ toString idx,
    detected := [round1 (min d0 d1), round1 (max d0 d1)],
    start := (seq.headI).start_s,
    end_s := (seq.getLastD default).end_s,
    length := round2 ((seq.getLastD default).end_s - (seq.headI).start_s),
    alternations := seq.length }

theorem warbleScan_rest_length (p : WarbleParams) :
    ∀ (l : List FreqGroup) (seq : List FreqGroup) (tones : List ℚ),
      (warbleScan p seq tones l).2.2.length ≤ l.length := by
  intro l
  induction l with
  | nil => intro seq tones; simp [warbleScan]
  | cons g rest ih =>
    intro seq tones
    simp only [warbleScan]
    repeat' split
    all_goals simp only [List.length_cons]
    all_goals first
      | exact Nat.le_succ _
      | exact Nat.le_succ_of_le (ih _ _)

theorem warbleScan_cons_length (p : WarbleParams) (seq : List FreqGroup) (tones : List ℚ)
    (g : FreqGroup) (rest : List FreqGroup) :
    (warbleScan p seq tones (g :: rest)).2.2.length ≤ rest.length := by
  simp only [warbleScan]
  repeat' split
  all_goals first
    | exact Nat.le_refl _
    | exact warbleScan_rest_length p rest _ _

/-- The outer `while` loop of `detect_warble_tones`; `idx` is the next hit id.
`fuel` bounds the number of iterations: each iteration consumes at least one
group (`warbleScan_cons_length`), so any `fuel > l.length` is exact. -/
def warbleOuter (p : WarbleParams) : ℕ → ℕ → List FreqGroup → List WarbleHit
  | 0, _, _ => []
  | _, _, [] => []
  | fuel + 1, idx, g :: rest =>
    let r := warbleScan p [] [] (g :: rest)
    if p.min_alternations ≤ r.1.length ∧ r.2.1.length = 2 then
      mkWarbleHit idx r.1 r.2.1 :: warbleOuter p fuel (idx + 1) r.2.2
    else warbleOuter p fuel idx r.2.2

/-- `detect_warble_tones` (tone_detection.py). -/
def detect_warble_tones (p : WarbleParams) (frequency_matches : List FreqGroup) :
    Except PyError (List WarbleHit) :=
  if p.interval_length < 0 then .error (.valueError "interval_length must be >= 0")
  else if p.min_alternations < 2 then .error (.valueError "min_alternations must be >= 2")
  else if p.tone_bw_hz ≤ 0 then .error (.valueError "tone_bw_hz must be > 0")
  else if p.min_pair_separation_hz ≤ 0 then
    .error (.valueError "min_pair_separation_hz must be > 0")
  else .ok (warbleOuter p (frequency_matches.length + 1) 1 frequency_matches)

/-! ## Pulsed single-tone detector -/

structure PulsedParams where
  bw_hz : ℚ := 25
  min_cycles : ℕ := 6
  min_on_ms : ℤ := 120
  max_on_ms : ℤ := 900
  min_off_ms : ℤ := 25
  max_off_ms : ℤ := 350
  time_resolution_ms : ℤ := 50
  auto_center_low : ℚ := 200
  auto_center_high : ℚ := 3000
  mode_bin_hz : ℚ := 5
deriving DecidableEq, Repr

structure PulsedHit where
  tone_id : String
  detected : ℚ
  start : ℚ
  end_s : ℚ
  length : ℚ
  cycles : ℕ
  on_ms_median : ℤ
  off_ms_median : ℤ
deriving DecidableEq, Repr

/-- Python `int()` truncation toward zero on a rational. -/
def int_trunc (q : ℚ) : ℤ := if 0 ≤ q then ⌊q⌋ else -⌊-q⌋

/-- `[f for f in freqs if lo <= f <= hi]`. -/
def bandFilter (lo hi : ℚ) (fs : List ℚ) : List ℚ :=
  fs.filter (fun f => decide (lo ≤ f) && decide (f ≤ hi))

/-- Number of iterations of `t = start; while t < end - 1e-12: ...; t += step`
(step > 0; the detector's step is time_resolution_ms / 1000). -/
def timelineCount (s e step : ℚ) : ℕ :=
  if step ≤ 0 then 0 else (⌈(e - 1/1000000000000 - s) / step⌉).toNat

/-- The fixed-step timeline entries one group contributes: `(round(t, 3), f)`
with `f` the median of the group's in-band freqs (0.0 if none). -/
def groupTimeline (lo hi step : ℚ) (g : FreqGroup) : List (ℚ × ℚ) :=
  let nz := bandFilter lo hi g.freqs
  let f := if nz = [] then 0 else pymedian nz
  (List.range (timelineCount g.start_s g.end_s step)).map
    (fun k => (round3 (g.start_s + (k : ℚ) * step), f))

/-- `stable_med` local to `detect_pulsed_single_tone`. -/
def stable_med (bw : ℚ) (freqs : List ℚ) (med : ℚ) : Bool :=
  freqs.all (fun f => !decide (0 < f) || decide (|f - med| ≤ bw))

/-- Accumulate into an association list keyed in first-insertion order
(models `defaultdict(float)` / `Counter` iteration order). -/
def accAdd (key : ℤ) (w : ℚ) : List (ℤ × ℚ) → List (ℤ × ℚ)
  | [] => [(key, w)]
  | (k, v) :: rest => if k = key then (k, v + w) :: rest else (k, v) :: accAdd key w rest

/-- `max(items, key=value)`: the first key attaining the maximal value. -/
def topKey : List (ℤ × ℚ) → ℤ
  | [] => 0
  | x :: rest => (rest.foldl (fun best y => if best.2 < y.2 then y else best) x).1

/-- The duration-weighted histogram over stable pulse-length groups used for
auto-centering (`weighted_bins`). -/
def weightedBins (pp : PulsedParams) (l : List FreqGroup) : List (ℤ × ℚ) :=
  let on_min_s := (pp.min_on_ms : ℚ) / 1000
  let on_max_s := (pp.max_on_ms : ℚ) / 1000
  l.foldl
    (fun acc g =>
      if g.duration_s < on_min_s ∨ on_max_s < g.duration_s then acc
      else
        let nz := bandFilter pp.auto_center_low pp.auto_center_high g.freqs
        if nz.length < 2 then acc
        else
          let med := pymedian nz
          if stable_med pp.bw_hz nz med then accAdd ⌊med / pp.mode_bin_hz⌋ g.duration_s acc
          else acc)
    []

/-- Auto-centering of `detect_pulsed_single_tone`: the top weighted bin's
group medians, else the modal bin of the in-band timeline values, else none. -/
def pulsedCenter (pp : PulsedParams) (l : List FreqGroup) (timeline : List (ℚ × ℚ)) :
    Option ℚ :=
  let wb := weightedBins pp l
  if wb ≠ [] then
    let top := topKey wb
    let cands := l.foldr
      (fun g acc =>
        let nz := bandFilter pp.auto_center_low pp.auto_center_high g.freqs
        if nz = [] then acc
        else
          let med := pymedian nz
          if ⌊med / pp.mode_bin_hz⌋ = top then med :: acc else acc)
      []
    some (pymedian cands)
  else
    let vals := timeline.filterMap
      (fun tf => if pp.auto_center_low ≤ tf.2 ∧ tf.2 ≤ pp.auto_center_high
                 then some tf.2 else none)
    if vals = [] then none
    else
      let cnt := vals.foldl (fun acc v => accAdd ⌊v / pp.mode_bin_hz⌋ 1 acc) []
      let top := topKey cnt
      some (pymedian (vals.filter (fun v => decide (⌊v / pp.mode_bin_hz⌋ = top))))

/-- An ON/OFF run `(state, start, end)`. -/
structure PulsedRun where
  state : Bool
  start_t : ℚ
  end_t : ℚ
deriving DecidableEq, Repr, Inhabited

/-- `in_band` local to `detect_pulsed_single_tone`. -/
def pulsed_in_band (center bw f : ℚ) : Bool := decide (0 < f) && decide (|f - center| ≤ bw)

def buildRunsAux (inb : ℚ → Bool) (finalEnd : ℚ) : Bool → ℚ → List (ℚ × ℚ) → List PulsedRun
  | st, s, [] => [⟨st, s, finalEnd⟩]
  | st, s, (t, f) :: rest =>
    if inb f = st then buildRunsAux inb finalEnd st s rest
    else ⟨st, s, t⟩ :: buildRunsAux inb finalEnd (inb f) t rest

/-- Coalesce the timeline into maximal same-state runs; the final run is
closed at `last time + step`. -/
def buildRuns (inb : ℚ → Bool) (step : ℚ) : List (ℚ × ℚ) → List PulsedRun
  | [] => []
  | (t0, f0) :: rest =>
    buildRunsAux inb ((rest.getLastD (t0, f0)).1 + step) (inb f0) t0 rest

/-- The inner pairing loop of the pulsed scan starting at run index `j`:
greedily consume ON/OFF pairs; returns the final `j`, the recorded on and off
lengths (ms) and the number of complete cycles. As in the Python loop, `j`
advances by 2 per consumed pair, so any `fuel ≥ runs.length` is exact. -/
def pulsedPairs (pp : PulsedParams) (runs : List PulsedRun) : ℕ → ℕ → ℕ × List ℤ × List ℤ × ℕ
  | 0, j => (j, [], [], 0)
  | fuel + 1, j =>
    if j + 1 < runs.length then
      let on_run := runs.getD j default
      if on_run.state = false then (j, [], [], 0)
      else
        let on_len : ℤ := round ((on_run.end_t - on_run.start_t) * 1000)
        if ¬ (pp.min_on_ms ≤ on_len ∧ on_len ≤ pp.max_on_ms) then (j, [], [], 0)
        else
          let off_run := runs.getD (j + 1) default
          if off_run.state = true then (j, [on_len], [], 0)
          else
            let off_len : ℤ := round ((off_run.end_t - off_run.start_t) * 1000)
            if ¬ (pp.min_off_ms ≤ off_len ∧ off_len ≤ pp.max_off_ms) then
              (j + 1, [on_len], [], 0)
            else
              let r := pulsedPairs pp runs fuel (j + 2)
              (r.1, on_len :: r.2.1, off_len :: r.2.2.1, r.2.2.2 + 1)
    else (j, [], [], 0)

/-- The outer scan loop of `detect_pulsed_single_tone` over the run list;
`i` advances by at least 1 per iteration, so any `fuel ≥ runs.length` is
exact. -/
def pulsedScanLoop (pp : PulsedParams) (runs : List PulsedRun) (center : ℚ) :
    ℕ → ℕ → ℕ → List PulsedHit
  | 0, _, _ => []
  | fuel + 1, i, pl_id =>
    if i + 1 < runs.length then
      let ri := runs.getD i default
      if ri.state = false then pulsedScanLoop pp runs center fuel (i + 1) pl_id
      else
        let r := pulsedPairs pp runs runs.length i
        let j := r.1
        let cycles := r.2.2.2
        if pp.min_cycles ≤ cycles then
          let end_idx := if j - 1 < runs.length then max i (j - 1) else i
          let s := round2 ri.start_t
          let e := round2 (runs.getD end_idx default).end_t
          { tone_id := "pl_" ++ toString pl_id,
            detected := round1 center,
            start := s,
            end_s := e,
            length := round2 (e - s),
            cycles := cycles,
            on_ms_median := if r.2.1 = [] then 0
                            else int_trunc (pymedian (r.2.1.map (fun n => (n : ℚ)))),
            off_ms_median := if r.2.2.1 = [] then 0
                             else int_trunc (pymedian (r.2.2.1.map (fun n => (n : ℚ)))) } ::
            pulsedScanLoop pp runs center fuel (max j (i + 1)) (pl_id + 1)
        else pulsedScanLoop pp runs center fuel (i + 1) pl_id
    else []

/-- The post-validation body of `detect_pulsed_single_tone`. -/
def pulsedRun (pp : PulsedParams) (l : List FreqGroup) : List PulsedHit :=
  if l = [] then []
  else
    let step := (pp.time_resolution_ms : ℚ) / 1000
    let tl := (l.map (groupTimeline pp.auto_center_low pp.auto_center_high step)).flatten
    if tl = [] then []
    else
      match pulsedCenter pp l tl with
      | none => []
      | some center =>
        let runs := buildRuns (pulsed_in_band center pp.bw_hz) step tl
        if runs.length < 2 then []
        else pulsedScanLoop pp runs center runs.length 0 1

/-- `detect_pulsed_single_tone` (tone_detection.py). -/
def detect_pulsed_single_tone (pp : PulsedParams) (l : List FreqGroup) :
    Except PyError (List PulsedHit) :=
  if pp.bw_hz ≤ 0 then .error (.valueError "bw_hz must be > 0")
  else if pp.mode_bin_hz ≤ 0 then .error (.valueError "mode_bin_hz must be > 0")
  else if pp.max_on_ms < pp.min_on_ms then .error (.valueError "min_on_ms must be <= max_on_ms")
  else if pp.max_off_ms < pp.min_off_ms then
    .error (.valueError "min_off_ms must be <= max_off_ms")
  else if ¬ (pp.auto_center_low < pp.auto_center_high) then
    .error (.valueError "auto_center_band must be (low < high)")
  else .ok (pulsedRun pp l)

/-! ## FrequencyExtraction: grouping utilities -/

/-- `FrequencyExtraction.dynamic_threshold` (frequency_extraction.py):
percent-of-previous tolerance, clamped to a hardcoded 30 Hz absolute cap
(`abs_cap_hz = 30.0` in the source); 0 forces a split when the previous
frame is not positive. -/
def dynamic_threshold (matching_threshold : ℚ) (frequencies : List ℚ) (index : ℕ) : ℚ :=
  let prev_f := frequencies.getD (index - 1) 0
  if prev_f ≤ 0 then 0
  else min (|prev_f| * matching_threshold / 100) 30

/-- `FrequencyExtraction.calculate_times` composed into the `flush` closure of
`match_frequencies`: a group over frame indices `[s, e]` becomes
`(round(times[s],3), round(times[e]+step,3), round(end-start,3), seq)`. -/
def flushGroup (times : ℕ → ℚ) (step : ℚ) (s e : ℕ) (seq : List ℚ) : FreqGroup :=
  let st := round3 (times s)
  let en := round3 (times e + step)
  ⟨st, en, round3 (en - st), seq⟩

/-- The `for i in range(1, len(freqs))` loop of `match_frequencies`.
`prev = freqs[i-1]`, `cur` holds `freqs[s..i-1]`, and `rest = freqs[i..]`. -/
def mfLoop (mt : ℚ) (times : ℕ → ℚ) (step : ℚ) :
    ℚ → ℕ → ℕ → List ℚ → List ℚ → List FreqGroup
  | _, i, s, cur, [] => [flushGroup times step s (i - 1) cur]
  | prev, i, s, cur, f :: rest =>
    if (decide (f = 0) ≠ decide (prev = 0)) then
      flushGroup times step s (i - 1) cur :: mfLoop mt times step f (i + 1) i [f] rest
    else if |f - prev| ≤ dynamic_threshold mt [prev] 1 then
      mfLoop mt times step f (i + 1) s (cur ++ [f]) rest
    else
      flushGroup times step s (i - 1) cur :: mfLoop mt times step f (i + 1) i [f] rest

/-- The optional short-gap merge loop at the end of `match_frequencies`. -/
def mergeGaps (gap_thresh : ℚ) : List FreqGroup → List FreqGroup
  | [] => []
  | [g] => [g]
  | g1 :: g2 :: rest =>
    let same_state := (g1.freqs.headI = 0 ∧ g2.freqs.headI = 0) ∨
                      (g1.freqs.headI ≠ 0 ∧ g2.freqs.headI ≠ 0)
    let gap := max 0 (g2.start_s - g1.end_s)
    if same_state ∧ gap ≤ gap_thresh then
      ⟨g1.start_s, g2.end_s, round3 (g2.end_s - g1.start_s), g1.freqs ++ g2.freqs⟩ ::
        mergeGaps gap_thresh rest
    else g1 :: mergeGaps gap_thresh (g2 :: rest)

/-- `FrequencyExtraction.match_frequencies` (frequency_extraction.py):
round each detected frequency to one decimal, group consecutive frames
(splitting on polarity changes and on jumps beyond the dynamic threshold),
then optionally merge short same-state gaps. There is no force-split logic. -/
def match_frequencies (mt : ℚ) (detected_frequencies : List ℚ) (times : ℕ → ℚ)
    (step : ℚ) (merge_short_gaps_ms : ℚ) : List FreqGroup :=
  match detected_frequencies.map round1 with
  | [] => []
  | f0 :: rest =>
    let groups := mfLoop mt times step f0 1 0 [f0] rest
    if merge_short_gaps_ms ≠ 0 ∧ 2 ≤ groups.length then
      mergeGaps (merge_short_gaps_ms / 1000) groups
    else groups

/-! ## FrequencyExtraction: sub-bin peak refinement -/

/-- `FrequencyExtraction._parabolic_interpolate`. -/
def parabolic_interpolate (y_minus y0 y_plus : ℚ) : ℚ :=
  if y_minus - 2 * y0 + y_plus = 0 then 0
  else (1/2) * (y_minus - y_plus) / (y_minus - 2 * y0 + y_plus)

/-- `np.clip(x, lo, hi)`. -/
def clip (x lo hi : ℚ) : ℚ := max lo (min hi x)

/-- `np.argmax`: index of the first occurrence of the maximum. -/
def argmaxIdx (xs : List ℚ) : ℕ :=
  match xs.enum with
  | [] => 0
  | y :: rest => (rest.foldl (fun best z => if best.2 < z.2 then z else best) y).1

/-- The per-frame peak refinement of `get_audio_frequencies` (lines 114-126)
for a non-gated frame: `col` is the frame's band-limited magnitude column,
`bf` the band bin frequencies, `df` the bin width. The peak bin's neighbors
are clamped to the band edges before parabolic interpolation and the offset
is clipped to [-1/2, 1/2]. -/
def refine_frame (col : List ℚ) (bf : ℕ → ℚ) (df : ℚ) : ℚ :=
  let k := argmaxIdx col
  let last := col.length - 1
  let k0 := min k last
  let km := k0 - 1
  let kp := min last (k0 + 1)
  let delta := clip (parabolic_interpolate (col.getD km 0) (col.getD k0 0) (col.getD kp 0))
    (-(1/2)) (1/2)
  bf k0 + delta * df

/-! ## Keyword-argument protocol between tone_detect and FrequencyExtraction -/

/-- The keyword-only parameters `FrequencyExtraction.__init__` accepts
(frequency_extraction.py lines 14-26). -/
def frequency_extraction_init_kwargs : List String :=
  ["fe_freq_band", "fe_merge_short_gaps_ms", "fe_silence_below_global_db",
   "fe_snr_above_noise_db"]

/-- The keyword arguments `tone_detect` passes to `FrequencyExtraction`
(main.py lines 366-376); a keyword not accepted by `__init__` raises
`TypeError` at call time. -/
def tone_detect_fe_call_kwargs : List String :=
  ["fe_freq_band", "fe_merge_short_gaps_ms", "fe_silence_below_global_db",
   "fe_snr_above_noise_db", "fe_abs_cap_hz", "fe_force_split_step_hz",
   "fe_split_lookahead_frames"]

/-! ## Cascade orchestrator (main.py) -/

/-- `_overlaps` (main.py). -/
def pyoverlaps (a b : ℚ × ℚ) (guard : ℚ) : Bool :=
  !(decide (a.2 + guard ≤ b.1) || decide (b.2 + guard ≤ a.1))

/-- `_qc_windows_from_hits` with `which="B"` (the default path used in
`tone_detect`): the guard-expanded B-tone window of each Quick Call hit. -/
def qc_windows_B (hits : List TwoToneHit) (guard : ℚ) : List (ℚ × ℚ) :=
  hits.map (fun h => (max 0 ((h.end_s - h.tone_b_length) - guard), h.end_s + guard))

/-- `_filter_groups_outside` (main.py). -/
def filter_groups_outside (groups : List FreqGroup) (windows : List (ℚ × ℚ)) (guard : ℚ) :
    List FreqGroup :=
  if windows = [] then groups
  else groups.filter (fun g => ¬ windows.any (fun w => pyoverlaps (g.start_s, g.end_s) w guard))

/-- The configuration record of `tone_detect` (main.py parameters). -/
structure Config where
  matching_threshold : ℚ
  time_resolution_ms : ℤ
  fe_freq_low : ℚ
  fe_freq_high : ℚ
  tone_a_min_length : ℚ
  tone_b_min_length : ℚ
  two_tone_max_gap_between_a_b : ℚ
  two_tone_bw_hz : ℚ
  two_tone_min_pair_separation_hz : ℚ
  hi_low_interval : ℚ
  hi_low_min_alternations : ℕ
  hi_low_tone_bw_hz : ℚ
  hi_low_min_pair_separation_hz : ℚ
  long_tone_min_length : ℚ
  long_tone_bw_hz : ℚ
  pulsed_bw_hz : ℚ
  pulsed_min_cycles : ℕ
  pulsed_min_on_ms : ℤ
  pulsed_max_on_ms : ℤ
  pulsed_min_off_ms : ℤ
  pulsed_max_off_ms : ℤ
  pulsed_mode_bin_hz : ℚ

/-- The default parameter values of `tone_detect` (main.py lines 118-171),
in field order. -/
def defaultConfig : Config :=
  ⟨5/2, 50, 200, 3000, 17/20, 13/5, 7/20, 25, 40, 1/5, 6, 25, 40, 19/5, 25,
   25, 6, 120, 900, 25, 350, 5⟩

def Config.pulsedParams (c : Config) : PulsedParams :=
  { bw_hz := c.pulsed_bw_hz, min_cycles := c.pulsed_min_cycles,
    min_on_ms := c.pulsed_min_on_ms, max_on_ms := c.pulsed_max_on_ms,
    min_off_ms := c.pulsed_min_off_ms, max_off_ms := c.pulsed_max_off_ms,
    time_resolution_ms := c.time_resolution_ms,
    auto_center_low := c.fe_freq_low, auto_center_high := c.fe_freq_high,
    mode_bin_hz := c.pulsed_mode_bin_hz }

def Config.twoToneParams (c : Config) : TwoToneParams :=
  { min_tone_a_length := c.tone_a_min_length, min_tone_b_length := c.tone_b_min_length,
    max_gap_between_a_b := c.two_tone_max_gap_between_a_b,
    tone_bw_hz := c.two_tone_bw_hz,
    min_pair_separation_hz := c.two_tone_min_pair_separation_hz }

def Config.longToneParams (c : Config) : LongToneParams :=
  { min_duration := c.long_tone_min_length, tone_bw_hz := c.long_tone_bw_hz,
    min_freq_hz := c.fe_freq_low }

def Config.warbleParams (c : Config) : WarbleParams :=
  { interval_length := c.hi_low_interval, min_alternations := c.hi_low_min_alternations,
    tone_bw_hz := c.hi_low_tone_bw_hz,
    min_pair_separation_hz := c.hi_low_min_pair_separation_hz }

/-- The guard used between cascade stages: half a hop. -/
def Config.guard_s (c : Config) : ℚ := (1/2) * ((c.time_resolution_ms : ℚ) / 1000)

/-- The detector cascade of `tone_detect` (main.py lines 458-523) with all
four detectors enabled, starting from the matched frequency groups: Pulsed
first, its hit intervals masked; Two-Tone next, only the guard-expanded
B-tone windows masked; Long next, its intervals masked; Warble last. -/
def tone_detect_cascade (c : Config) (matched : List FreqGroup) :
    Except PyError (List PulsedHit × List TwoToneHit × List LongToneHit × List WarbleHit) := do
  let guard := c.guard_s
  let pulsed ← detect_pulsed_single_tone c.pulsedParams matched
  let g1 := filter_groups_outside matched (pulsed.map (fun h => (h.start, h.end_s))) guard
  let tt ← detect_two_tone_tones c.twoToneParams g1
  let g2 := filter_groups_outside g1 (qc_windows_B tt guard) guard
  let lt ← detect_long_tones c.longToneParams g2
  let g3 := filter_groups_outside g2 (lt.map (fun h => (h.start, h.end_s))) guard
  let hl ← detect_warble_tones c.warbleParams g3
  pure (pulsed, tt, lt, hl)

/-! ## Concrete inputs used in the theorems below -/

/-- A 2 s stable 1000 Hz group, a 1 s OFF group, and a 3 s stable 1500 Hz
group: a Quick Call whose A tone is itself long enough to be a long tone. -/
def qcLongInput : List FreqGroup :=
  [⟨0, 2, 2, [1000, 1000]⟩, ⟨2, 3, 1, [0, 0]⟩, ⟨3, 6, 3, [1500, 1500]⟩]

/-- The tone_detect configuration used with `qcLongInput`: 500 ms hop, A→B
gap allowance 1 s, long-tone threshold 2 s; all else default. -/
def qcLongConfig : Config :=
  { defaultConfig with
      time_resolution_ms := 500
      two_tone_max_gap_between_a_b := 1
      long_tone_min_length := 2 }

/-- Two 0.3 s bursts of 1000 Hz separated by 0.2 s of a stable 2000 Hz tone
(not silence): a pulse train whose gap is a far-from-center tone group. -/
def pulsedFarToneInput : List FreqGroup :=
  [⟨0, 3/10, 3/10, [1000, 1000, 1000]⟩,
   ⟨3/10, 1/2, 1/5, [2000, 2000]⟩,
   ⟨1/2, 4/5, 3/10, [1000, 1000, 1000]⟩]

/-- Pulsed parameters used with `pulsedFarToneInput`: 100 ms hop, 1 cycle. -/
def pulsedFarToneParams : PulsedParams :=
  { min_cycles := 1, time_resolution_ms := 100 }

/-- The timeline `detect_pulsed_single_tone` builds from `pulsedFarToneInput`
at a 100 ms hop. -/
def pulsedFarTimeline : List (ℚ × ℚ) :=
  [(0, 1000), (1/10, 1000), (1/5, 1000),
   (3/10, 2000), (2/5, 2000),
   (1/2, 1000), (3/5, 1000), (7/10, 1000)]

/-- The ON/OFF runs over `pulsedFarTimeline` with center 1000 Hz: the middle
2000 Hz tone group is classified off, with no third state. -/
def pulsedFarRuns : List PulsedRun :=
  [⟨true, 0, 3/10⟩, ⟨false, 3/10, 1/2⟩, ⟨true, 1/2, 4/5⟩]

/-- Four stable groups with centers 1000, 1040, 1014, 1040 Hz, the gap before
the third group being 0.2 s + 1 µs. -/
def warbleClusterInput : List FreqGroup :=
  [⟨0, 1/2, 1/2, [1000, 1000]⟩,
   ⟨1/2, 1, 1/2, [1040, 1040]⟩,
   ⟨1200001/1000000, 17/10, 1/2, [1014, 1014]⟩,
   ⟨17/10, 11/5, 1/2, [1040, 1040]⟩]

/-- Warble parameters used with `warbleClusterInput`. -/
def warbleClusterParams : WarbleParams :=
  { interval_length := 1/5, min_alternations := 4 }


/-- Literal forms of the detector parameter records `qcLongConfig` induces. -/
def qcLongPP : PulsedParams := { time_resolution_ms := 500 }

def qcLongTT : TwoToneParams :=
  { min_tone_a_length := 17/20, min_tone_b_length := 13/5, max_gap_between_a_b := 1 }

def qcLongLT : LongToneParams := { min_duration := 2 }

/-- The timeline the pulsed detector builds from `qcLongInput` at a 500 ms hop. -/
def qcLongTimeline : List (ℚ × ℚ) :=
  [(0, 1000), (1/2, 1000), (1, 1000), (3/2, 1000),
   (2, 0), (5/2, 0),
   (3, 1500), (7/2, 1500), (4, 1500), (9/2, 1500), (5, 1500), (11/2, 1500)]

def qcLongRuns : List PulsedRun := [⟨false, 0, 3⟩, ⟨true, 3, 6⟩]

/-- The in-band timeline values of `qcLongTimeline`. -/
def qcLongVals : List ℚ :=
  [1000, 1000, 1000, 1000, 1500, 1500, 1500, 1500, 1500, 1500]

/-- The Quick Call hit the cascade finds on `qcLongInput`. -/
def qcLongTTHit : TwoToneHit :=
  { tone_id := "qc_" ++ toString 1, detected := [1000, 1500], tone_a_length := 2,
    tone_b_length := 3, start := 0, end_s := 6 }

/-- The long-tone hit the cascade finds on `qcLongInput` (the A tone). -/
def qcLongLTHit : LongToneHit :=
  { tone_id := "lt_" ++ toString 1, detected := 1000, start := 0, end_s := 2, length := 2 }


/-- The inter-group gap test of the warble inner loop (with the code's 1e-6
float slack). -/
def warbleGapOk (p : WarbleParams) (g1 g2 : FreqGroup) : Prop :=
  g2.start_s - g1.end_s ≤ p.interval_length + 1/1000000

/-- The state invariant of the warble inner loop: the current sequence and
allowed-tone list are empty, a stable singleton with its center, or a run
whose groups are stable and clustered within tone_bw of one of two allowed
tones separated by at least min_pair_separation. -/
def warbleSeqInv (p : WarbleParams) (seq : List FreqGroup) (tones : List ℚ) : Prop :=
  (seq = [] ∧ tones = []) ∨
  (∃ g, seq = [g] ∧ tones = [group_center g] ∧ group_is_stable g p.tone_bw_hz = true) ∨
  (∃ a b, tones = [a, b] ∧ seq ≠ [] ∧ group_center seq.headI = a ∧
    (∃ gb ∈ seq, group_center gb = b) ∧
    p.min_pair_separation_hz ≤ |a - b| ∧ 0 < a ∧ 0 < b ∧
    (∀ g ∈ seq, group_is_stable g p.tone_bw_hz = true ∧
      (|group_center g - a| ≤ p.tone_bw_hz ∨ |group_center g - b| ≤ p.tone_bw_hz)) ∧
    List.Chain' (warbleGapOk p) seq)

/-! ## General helper lemmas -/

theorem ceil_as_floor (a : ℚ) : (⌈a⌉ : ℤ) = -⌊-a⌋ := by
  rw [Int.floor_neg]; ring

/-- Validation of `detect_pulsed_single_tone` passes for in-bounds params. -/
theorem detect_pulsed_ok (pp : PulsedParams) (l : List FreqGroup)
    (h1 : 0 < pp.bw_hz) (h2 : 0 < pp.mode_bin_hz) (h3 : pp.min_on_ms ≤ pp.max_on_ms)
    (h4 : pp.min_off_ms ≤ pp.max_off_ms) (h5 : pp.auto_center_low < pp.auto_center_high) :
    detect_pulsed_single_tone pp l = .ok (pulsedRun pp l) := by
  rw [detect_pulsed_single_tone, if_neg (by exact not_le.mpr h1),
    if_neg (by exact not_le.mpr h2), if_neg (by exact not_lt.mpr h3),
    if_neg (by exact not_lt.mpr h4), if_neg (by simp [h5])]

/-- `Except.bind` on an ok value. -/
theorem except_bind_ok {α β : Type} (a : α) (f : α → Except PyError β) :
    (Except.ok a >>= f : Except PyError β) = f a := rfl

theorem filter_groups_outside_nil (groups : List FreqGroup) (guard : ℚ) :
    filter_groups_outside groups [] guard = groups := by
  simp [filter_groups_outside]

/-- Validation of `detect_two_tone_tones` passes for in-bounds params. -/
theorem detect_two_tone_ok (p : TwoToneParams) (l : List FreqGroup)
    (h1 : 0 < p.min_tone_a_length) (h2 : 0 < p.min_tone_b_length)
    (h3 : 0 ≤ p.max_gap_between_a_b) (h4 : 0 < p.tone_bw_hz)
    (h5 : 0 < p.min_pair_separation_hz) :
    detect_two_tone_tones p l = .ok (twoToneScan p none 0 l) := by
  rw [detect_two_tone_tones, if_neg (not_le.mpr h1), if_neg (not_le.mpr h2),
    if_neg (not_lt.mpr h3), if_neg (not_le.mpr h4), if_neg (not_le.mpr h5)]

/-- Validation of `detect_long_tones` passes for in-bounds params. -/
theorem detect_long_ok (p : LongToneParams) (l : List FreqGroup)
    (h1 : 0 < p.min_duration) (h2 : 0 < p.tone_bw_hz) :
    detect_long_tones p l = .ok (longToneLoop p 0 l) := by
  rw [detect_long_tones, if_neg (not_le.mpr h1), if_neg (not_le.mpr h2)]

/-- Validation of `detect_warble_tones` passes for in-bounds params. -/
theorem detect_warble_ok (p : WarbleParams) (l : List FreqGroup)
    (h1 : 0 ≤ p.interval_length) (h2 : 2 ≤ p.min_alternations) (h3 : 0 < p.tone_bw_hz)
    (h4 : 0 < p.min_pair_separation_hz) :
    detect_warble_tones p l = .ok (warbleOuter p (l.length + 1) 1 l) := by
  rw [detect_warble_tones, if_neg (not_lt.mpr h1), if_neg (not_lt.mpr h2),
    if_neg (not_le.mpr h3), if_neg (not_le.mpr h4)]

/-- An ok result of `detect_pulsed_single_tone` is the scan body's value. -/
theorem detect_pulsed_ok_inv {pp : PulsedParams} {l : List FreqGroup}
    {hits : List PulsedHit} (h : detect_pulsed_single_tone pp l = .ok hits) :
    hits = pulsedRun pp l := by
  rw [detect_pulsed_single_tone] at h
  repeat' split at h
  all_goals simp_all

/-- An ok result of `detect_two_tone_tones` is the scan body's value. -/
theorem detect_two_tone_ok_inv {p : TwoToneParams} {l : List FreqGroup}
    {hits : List TwoToneHit} (h : detect_two_tone_tones p l = .ok hits) :
    hits = twoToneScan p none 0 l := by
  rw [detect_two_tone_tones] at h
  repeat' split at h
  all_goals simp_all

/-- An ok result of `detect_long_tones` is the loop body's value. -/
theorem detect_long_ok_inv {p : LongToneParams} {l : List FreqGroup}
    {hits : List LongToneHit} (h : detect_long_tones p l = .ok hits) :
    hits = longToneLoop p 0 l := by
  rw [detect_long_tones] at h
  repeat' split at h
  all_goals simp_all

/-- An ok result of `detect_warble_tones` is the outer loop's value, and the
validated bounds hold. -/
theorem detect_warble_ok_inv {p : WarbleParams} {l : List FreqGroup}
    {hits : List WarbleHit} (h : detect_warble_tones p l = .ok hits) :
    hits = warbleOuter p (l.length + 1) 1 l ∧
      0 ≤ p.interval_length ∧ 2 ≤ p.min_alternations ∧ 0 < p.tone_bw_hz ∧
      0 < p.min_pair_separation_hz := by
  rw [detect_warble_tones] at h
  repeat' split at h
  all_goals simp_all

/-- Groups surviving `_filter_groups_outside` belong to the input and overlap
none of the windows within the guard. -/
theorem filter_groups_outside_spec {groups : List FreqGroup} {windows : List (ℚ × ℚ)}
    {guard : ℚ} {g : FreqGroup} (h : g ∈ filter_groups_outside groups windows guard) :
    g ∈ groups ∧ ∀ w ∈ windows, pyoverlaps (g.start_s, g.end_s) w guard = false := by
  rw [filter_groups_outside] at h
  split at h
  · next hw => subst hw; exact ⟨h, by simp⟩
  · rw [List.mem_filter] at h
    refine ⟨h.1, ?_⟩
    intro w hw
    have h2 := h.2
    simp only [decide_eq_true_eq] at h2
    by_contra hcontra
    exact h2 (List.any_eq_true.mpr ⟨w, hw, by simpa using hcontra⟩)

/-- Every long-tone hit points back to a stable group of the input list with
the hit's start and end, with at least two positive freqs, a center above
the floor and a duration above the threshold. -/
theorem longToneLoop_mem {p : LongToneParams} :
    ∀ {l : List FreqGroup} {count : ℕ} {h : LongToneHit}, h ∈ longToneLoop p count l →
      ∃ g ∈ l, h.start = g.start_s ∧ h.end_s = g.end_s ∧ h.length = g.duration_s ∧
        h.detected = round1 (group_center g) ∧ group_is_stable g p.tone_bw_hz = true ∧
        p.min_freq_hz < group_center g ∧ p.min_duration ≤ g.duration_s := by
  intro l
  induction l with
  | nil => intro count h hmem; simp [longToneLoop] at hmem
  | cons g rest ih =>
    intro count h hmem
    simp only [longToneLoop] at hmem
    split at hmem
    · obtain ⟨g0, hg0, hrest⟩ := ih hmem
      exact ⟨g0, List.mem_cons_of_mem _ hg0, hrest⟩
    · split at hmem
      · obtain ⟨g0, hg0, hrest⟩ := ih hmem
        exact ⟨g0, List.mem_cons_of_mem _ hg0, hrest⟩
      · next hstable =>
        split at hmem
        · obtain ⟨g0, hg0, hrest⟩ := ih hmem
          exact ⟨g0, List.mem_cons_of_mem _ hg0, hrest⟩
        · next hcenter =>
          split at hmem
          · next hdur =>
            rw [List.mem_cons] at hmem
            rcases hmem with heq | hmem
            · subst heq
              exact ⟨g, List.mem_cons_self _ _, rfl, rfl, rfl, rfl,
                by simpa using hstable, by simpa using hcenter, hdur⟩
            · obtain ⟨g0, hg0, hrest⟩ := ih hmem
              exact ⟨g0, List.mem_cons_of_mem _ hg0, hrest⟩
          · obtain ⟨g0, hg0, hrest⟩ := ih hmem
            exact ⟨g0, List.mem_cons_of_mem _ hg0, hrest⟩

/-! ## Evaluation of the pulsed far-tone example -/

theorem pulsedFarTimeline_eq :
    (pulsedFarToneInput.map (groupTimeline 200 3000 (1/10))).flatten = pulsedFarTimeline := by
  norm_num [pulsedFarToneInput, pulsedFarTimeline, groupTimeline, timelineCount, ceil_as_floor,
    bandFilter, pymedian, List.insertionSort, List.orderedInsert, List.range_succ, round3,
    round_to, round_eq, List.cons_ne_nil]
  simp only [Int.reduceToNat]
  norm_num [List.range_succ, round3, round_to, round_eq]

theorem pulsedFarCenter_eq :
    pulsedCenter pulsedFarToneParams pulsedFarToneInput pulsedFarTimeline = some 1000 := by
  norm_num [pulsedCenter, pulsedFarToneParams, pulsedFarToneInput, pulsedFarTimeline,
    weightedBins, accAdd, topKey, stable_med, bandFilter, pymedian, List.insertionSort,
    List.orderedInsert, List.cons_ne_nil]

theorem pulsedFarRuns_eq :
    buildRuns (pulsed_in_band 1000 25) (1/10) pulsedFarTimeline = pulsedFarRuns := by
  norm_num [buildRuns, buildRunsAux, pulsed_in_band, pulsedFarTimeline, pulsedFarRuns]

set_option maxHeartbeats 2000000 in
theorem pulsedFarScan_eq :
    (pulsedScanLoop pulsedFarToneParams pulsedFarRuns 1000 3 0 1).map
      (fun h => (h.detected, h.start, h.end_s, h.length, h.cycles, h.on_ms_median,
        h.off_ms_median)) = [(1000, 0, 1/2, 1/2, 1, 300, 200)] := by
  norm_num [pulsedScanLoop, pulsedPairs, pulsedFarToneParams, pulsedFarRuns, int_trunc,
    pymedian, List.insertionSort, List.orderedInsert, round1, round2, round_to, round_eq,
    List.cons_ne_nil]

theorem pulsedFarRun_eq :
    (pulsedRun pulsedFarToneParams pulsedFarToneInput).map
      (fun h => (h.detected, h.start, h.end_s, h.length, h.cycles, h.on_ms_median,
        h.off_ms_median)) = [(1000, 0, 1/2, 1/2, 1, 300, 200)] := by
  have h1 := pulsedFarTimeline_eq
  have h2 := pulsedFarCenter_eq
  have h3 := pulsedFarRuns_eq
  have h4 := pulsedFarScan_eq
  simp only [pulsedRun]
  rw [if_neg (show ¬ pulsedFarToneInput = [] by simp [pulsedFarToneInput])]
  rw [show ((pulsedFarToneParams.time_resolution_ms : ℚ) / 1000) = 1/10 by
    norm_num [pulsedFarToneParams]]
  rw [show pulsedFarToneParams.auto_center_low = 200 from by norm_num [pulsedFarToneParams]]
  rw [show pulsedFarToneParams.auto_center_high = 3000 from by norm_num [pulsedFarToneParams]]
  rw [h1]
  rw [if_neg (show ¬ pulsedFarTimeline = [] by simp [pulsedFarTimeline])]
  rw [h2]
  simp only []
  rw [show pulsedFarToneParams.bw_hz = 25 by norm_num [pulsedFarToneParams]]
  rw [h3]
  rw [if_neg (show ¬ pulsedFarRuns.length < 2 by simp [pulsedFarRuns])]
  rw [show pulsedFarRuns.length = 3 by simp [pulsedFarRuns]]
  exact h4

/-! ## C6 -/

/-- C6: FALSE as stated. The pulsed detector has no `off_zero_ratio` and no
OTHER state: on `pulsedFarToneInput` (1000 Hz bursts separated by a stable
2000 Hz tone) the middle 2000 Hz group — OTHER under the claimed
classification, since none of its freqs are zero (fraction 0 < 0.8) and its
nonzero median 2000 is not within ±25 Hz of the inferred center 1000 — is
classified off and consumed as the OFF phase of the emitted pulse hit
[0, 0.5], which strictly contains the group's interval [0.3, 0.5]. -/
theorem pulsed_other_group_participates :
    (detect_pulsed_single_tone pulsedFarToneParams pulsedFarToneInput).map
        (fun hits => hits.map (fun h => (h.detected, h.start, h.end_s, h.length, h.cycles,
          h.on_ms_median, h.off_ms_median))) = .ok [(1000, 0, 1/2, 1/2, 1, 300, 200)] ∧
    ((pulsedFarToneInput.getD 1 default).freqs.filter (fun f => decide (f = 0))).length = 0 ∧
    pymedian (bandFilter 200 3000 (pulsedFarToneInput.getD 1 default).freqs) = 2000 ∧
    pulsed_in_band 1000 25 2000 = false ∧
    (pulsedFarToneInput.getD 1 default).start_s = 3/10 ∧
    (pulsedFarToneInput.getD 1 default).end_s = 1/2 ∧
    ((0 : ℚ) ≤ 3/10 ∧ (1/2 : ℚ) ≤ 1/2) := by
  refine ⟨?_, ?_, ?_, ?_, ?_, ?_, by norm_num⟩
  · rw [detect_pulsed_ok pulsedFarToneParams pulsedFarToneInput
      (by norm_num [pulsedFarToneParams]) (by norm_num [pulsedFarToneParams])
      (by norm_num [pulsedFarToneParams]) (by norm_num [pulsedFarToneParams])
      (by norm_num [pulsedFarToneParams])]
    simp only [Except.map]
    rw [pulsedFarRun_eq]
  · norm_num [pulsedFarToneInput]
  · norm_num [pulsedFarToneInput, bandFilter, pymedian, List.insertionSort,
      List.orderedInsert, List.cons_ne_nil]
  · norm_num [pulsed_in_band]
  · norm_num [pulsedFarToneInput]
  · norm_num [pulsedFarToneInput]

/-- The run list built from any timeline strictly alternates states. -/
theorem buildRunsAux_chain (inb : ℚ → Bool) (finalEnd : ℚ) :
    ∀ (l : List (ℚ × ℚ)) (st : Bool) (s : ℚ),
      (buildRunsAux inb finalEnd st s l ≠ [] ∧
       (buildRunsAux inb finalEnd st s l).headI.state = st) ∧
      List.Chain' (fun r1 r2 => r1.state ≠ r2.state) (buildRunsAux inb finalEnd st s l) := by
  intro l
  induction l with
  | nil => intro st s; simp [buildRunsAux]
  | cons tf rest ih =>
    intro st s
    obtain ⟨t, f⟩ := tf
    simp only [buildRunsAux]
    by_cases h : inb f = st
    · simp only [h, if_pos rfl]
      exact ih st s
    · rw [if_neg h]
      obtain ⟨⟨hne, hhead⟩, hchain⟩ := ih (inb f) t
      refine ⟨⟨by simp, by simp⟩, ?_⟩
      rw [List.chain'_cons']
      refine ⟨?_, hchain⟩
      intro y hy
      cases hl : buildRunsAux inb finalEnd (inb f) t rest with
      | nil => rw [hl] at hy; simp at hy
      | cons a as =>
        rw [hl] at hy
        simp only [List.head?_cons, Option.mem_def, Option.some.injEq] at hy
        rw [hl] at hhead
        simp only [List.headI] at hhead
        subst hy
        simp only [hhead]
        intro hcontra
        exact h hcontra.symm

/-- C6 amended: the pulsed detector's per-frame classification is binary: a
timeline frame is ON iff its group's in-band median `f` satisfies `f > 0`
and `|f − center| ≤ bw_hz` (`pulsed_in_band`), and OFF otherwise — there is
no `off_zero_ratio` and no OTHER state. Maximal runs strictly alternate
between ON and OFF, and a stable tone far from the inferred center is
classified OFF and can be consumed as the OFF phase of an emitted pulse
sequence, as on `pulsedFarToneInput`. -/
theorem pulsed_classification_is_binary :
    (∀ (inb : ℚ → Bool) (step : ℚ) (tl : List (ℚ × ℚ)),
      List.Chain' (fun r1 r2 => r1.state ≠ r2.state) (buildRuns inb step tl)) ∧
    pulsed_in_band 1000 25 2000 = false ∧
    (detect_pulsed_single_tone pulsedFarToneParams pulsedFarToneInput).map
        (fun hits => hits.map (fun h => (h.start, h.end_s))) = .ok [(0, 1/2)] := by
  refine ⟨?_, by norm_num [pulsed_in_band], ?_⟩
  · intro inb step tl
    cases tl with
    | nil => simp [buildRuns]
    | cons tf rest =>
      obtain ⟨t0, f0⟩ := tf
      exact (buildRunsAux_chain inb _ rest (inb f0) t0).2
  · rw [detect_pulsed_ok pulsedFarToneParams pulsedFarToneInput
      (by norm_num [pulsedFarToneParams]) (by norm_num [pulsedFarToneParams])
      (by norm_num [pulsedFarToneParams]) (by norm_num [pulsedFarToneParams])
      (by norm_num [pulsedFarToneParams])]
    simp only [Except.map]
    have h := pulsedFarRun_eq
    have : (pulsedRun pulsedFarToneParams pulsedFarToneInput).map
        (fun h => (h.start, h.end_s)) = [(0, 1/2)] := by
      cases hl : pulsedRun pulsedFarToneParams pulsedFarToneInput with
      | nil => rw [hl] at h; simp at h
      | cons a as =>
        rw [hl] at h
        cases as with
        | nil =>
          simp only [List.map_cons, List.map_nil, List.cons.injEq, and_true,
            Prod.mk.injEq] at h
          simp [h.2.1, h.2.2.1]
        | cons b bs => rw [List.map_cons, List.map_cons] at h; simp at h
    rw [this]

/-! ## C2 -/

/-- C2: the grouper's dynamic tolerance is `min(|prev| * threshold / 100, 30)`
with a hardcoded 30 Hz cap, not the `fe_abs_cap_hz` option (default 15 Hz):
at a previous frame of 1000 Hz and matching_threshold 2.5% the code returns
25 Hz where the claimed formula with the 15 Hz cap gives 15 Hz, and at
2000 Hz the active cap is 30 Hz; moreover `tone_detect` passes
`fe_abs_cap_hz` to `FrequencyExtraction.__init__`, which does not accept
that keyword (a `TypeError` at every call). -/
theorem dynamic_threshold_cap_is_hardcoded_30 :
    dynamic_threshold (5/2) [1000, 1020] 1 = 25 ∧
    min (|(1000 : ℚ)| * (5/2) / 100) 15 = 15 ∧ (25 : ℚ) ≠ 15 ∧
    dynamic_threshold (5/2) [2000, 2000] 1 = 30 ∧
    "fe_abs_cap_hz" ∈ tone_detect_fe_call_kwargs ∧
    "fe_abs_cap_hz" ∉ frequency_extraction_init_kwargs := by
  refine ⟨by norm_num [dynamic_threshold], by norm_num, by norm_num,
    by norm_num [dynamic_threshold], by simp [tone_detect_fe_call_kwargs],
    by simp [frequency_extraction_init_kwargs]⟩

/-! ## C3 -/

/-- C3: the grouper has no force-split. With matching_threshold 2.5% and
frames [1000, 1013, 1013] Hz the 13 Hz step reaches the default 12 Hz
`fe_force_split_step_hz` and the single look-ahead frame confirms the shift,
yet `match_frequencies` emits one group (no boundary at the step); the
force-split keywords `tone_detect` passes are not accepted by
`FrequencyExtraction.__init__`. -/
theorem match_frequencies_has_no_force_split :
    (match_frequencies (5/2) [1000, 1013, 1013] (fun k => (k : ℚ)/20) (1/20) 0).length = 1 ∧
    (12 : ℚ) ≤ |(1013 : ℚ) - 1000| ∧ |(1013 : ℚ) - 1013| < |(1013 : ℚ) - 1000| ∧
    "fe_force_split_step_hz" ∈ tone_detect_fe_call_kwargs ∧
    "fe_force_split_step_hz" ∉ frequency_extraction_init_kwargs ∧
    "fe_split_lookahead_frames" ∈ tone_detect_fe_call_kwargs ∧
    "fe_split_lookahead_frames" ∉ frequency_extraction_init_kwargs := by
  refine ⟨?_, by norm_num, by norm_num, by simp [tone_detect_fe_call_kwargs],
    by simp [frequency_extraction_init_kwargs], by simp [tone_detect_fe_call_kwargs],
    by simp [frequency_extraction_init_kwargs]⟩
  norm_num [match_frequencies, mfLoop, dynamic_threshold, flushGroup, round1, round3,
    round_to, round_eq]

/-! ## C8 -/

/-- C8: FALSE as stated. On band magnitudes [4, 2, 1] the peak is the edge
bin k = 0, and the refinement returns f[0] - Δf/2 = 195 (with f[0] = 200,
Δf = 10), not f[0] exactly: the duplicated-neighbor parabola yields
δ = -1/2, which survives the clip — edge bins do not clamp δ to 0. -/
theorem refine_frame_edge_not_clamped :
    refine_frame [4, 2, 1] (fun k => 200 + 10 * (k : ℚ)) 10 = 195 ∧
    argmaxIdx [4, 2, 1] = 0 ∧ (195 : ℚ) ≠ 200 := by
  refine ⟨?_, ?_, by norm_num⟩
  · norm_num [refine_frame, argmaxIdx, parabolic_interpolate, clip, List.enum,
      List.enumFrom]
  · norm_num [argmaxIdx, List.enum, List.enumFrom]

/-- C8 amended: for a non-gated frame the peak offset δ always satisfies
|δ| ≤ 1/2 and f_hat = f[k] + δ·Δf; at the edge bins, however, δ is not
clamped to 0: at k = 0 the parabola on the duplicated neighbor gives
δ = -1/2 exactly (when mag[1] ≠ mag[0]), and at k = last it gives δ = +1/2
(when mag[last-1] ≠ mag[last]); δ = 0 at an edge only when the inner
neighbor's magnitude equals the peak's. -/
theorem refine_frame_edge_behavior :
    (∀ (col : List ℚ) (bf : ℕ → ℚ) (df : ℚ),
      2 ≤ col.length → argmaxIdx col = 0 → col.getD 1 0 ≠ col.getD 0 0 →
      refine_frame col bf df = bf 0 - df / 2) ∧
    (∀ (col : List ℚ) (bf : ℕ → ℚ) (df : ℚ),
      2 ≤ col.length → argmaxIdx col = col.length - 1 →
      col.getD (col.length - 2) 0 ≠ col.getD (col.length - 1) 0 →
      refine_frame col bf df = bf (col.length - 1) + df / 2) ∧
    (∀ (col : List ℚ) (bf : ℕ → ℚ) (df : ℚ),
      ∃ d : ℚ, |d| ≤ 1/2 ∧
        refine_frame col bf df = bf (min (argmaxIdx col) (col.length - 1)) + d * df) := by
  refine ⟨?_, ?_, ?_⟩
  · intro col bf df hlen hk hne
    have hlast : 1 ≤ col.length - 1 := by omega
    simp only [refine_frame, hk, Nat.zero_min, Nat.min_eq_right hlast, Nat.zero_sub]
    have hd : col.getD 0 0 - 2 * col.getD 0 0 + col.getD 1 0 ≠ 0 := by
      intro h; apply hne; linarith [h]
    rw [parabolic_interpolate, if_neg hd]
    have : (1/2 : ℚ) * (col.getD 0 0 - col.getD 1 0) /
        (col.getD 0 0 - 2 * col.getD 0 0 + col.getD 1 0) = -(1/2) := by
      rw [div_eq_iff hd]; ring
    rw [this]
    have hclip : clip (-(1/2)) (-(1/2)) (1/2) = -(1/2) := by
      simp only [clip]
      rw [min_eq_right (by norm_num : (-(1/2) : ℚ) ≤ 1/2), max_self]
    rw [hclip]; ring
  · intro col bf df hlen hk hne
    have h1 : min (col.length - 1) (col.length - 1) = col.length - 1 := min_self _
    have h2 : min (col.length - 1) (col.length - 1 + 1) = col.length - 1 :=
      Nat.min_eq_left (by omega)
    simp only [refine_frame, hk, h1, h2]
    have hd : col.getD (col.length - 1 - 1) 0 - 2 * col.getD (col.length - 1) 0 +
        col.getD (col.length - 1) 0 ≠ 0 := by
      have : col.length - 1 - 1 = col.length - 2 := by omega
      rw [this]
      intro h; apply hne; linarith [h]
    rw [parabolic_interpolate, if_neg hd]
    have heq : (1/2 : ℚ) * (col.getD (col.length - 1 - 1) 0 - col.getD (col.length - 1) 0) /
        (col.getD (col.length - 1 - 1) 0 - 2 * col.getD (col.length - 1) 0 +
          col.getD (col.length - 1) 0) = 1/2 := by
      rw [div_eq_iff hd]; ring
    rw [heq]
    have hclip : clip (1/2) (-(1/2)) (1/2) = 1/2 := by
      simp only [clip]
      rw [min_self, max_eq_right (by norm_num : (-(1/2) : ℚ) ≤ 1/2)]
    rw [hclip]; ring
  · intro col bf df
    refine ⟨clip (parabolic_interpolate (col.getD (min (argmaxIdx col) (col.length - 1) - 1) 0)
      (col.getD (min (argmaxIdx col) (col.length - 1)) 0)
      (col.getD (min (col.length - 1) (min (argmaxIdx col) (col.length - 1) + 1)) 0))
      (-(1/2)) (1/2), ?_, rfl⟩
    simp only [clip]
    rw [abs_le]
    constructor
    · exact le_max_left _ _
    · exact max_le (by norm_num) (min_le_left _ _)

/-- Closed instance of `refine_frame_edge_behavior` at the concrete frame
[4, 2, 1]: the edge peak refines to f[0] - bin_width/2. -/
theorem refine_frame_edge_behavior_witness :
    refine_frame [4, 2, 1] (fun k => 200 + 10 * (k : ℚ)) 10 =
      (fun k : ℕ => 200 + 10 * (k : ℚ)) 0 - 10 / 2 :=
  refine_frame_edge_behavior.1 [4, 2, 1] (fun k => 200 + 10 * (k : ℚ)) 10
    (by norm_num)
    (by norm_num [argmaxIdx, List.enum, List.enumFrom])
    (by norm_num)

/-! ## C9 -/

/-- C9: FALSE as stated: an out-of-bounds parameter makes the detector fail
fast on entry, but with Python's builtin `ValueError`, not a distinct
`ConfigurationInvalid` error kind — exceptions.py defines no such class. -/
theorem invalid_config_raises_builtin_valueerror :
    detect_pulsed_single_tone { min_on_ms := 900, max_on_ms := 120 } [] =
      .error (.valueError "min_on_ms must be <= max_on_ms") ∧
    "ConfigurationInvalid" ∉ library_exception_names := by
  constructor
  · rw [detect_pulsed_single_tone]
    rw [if_neg (by norm_num), if_neg (by norm_num), if_pos (by norm_num)]
  · simp [library_exception_names]

/-- C9 amended: for every detector, a parameter violating its documented
bounds causes the call to fail fast on entry — for every input group list
the result is the same `ValueError` — and `ValueError` is a builtin
exception kind distinct from the library's AudioLoadError,
FrequencyExtractionError, ToneDetectionError and FFmpegNotFoundError
(exceptions.py defines no ConfigurationInvalid kind). -/
theorem detectors_fail_fast_with_valueerror :
    (∀ (pp : PulsedParams) (l : List FreqGroup), pp.bw_hz ≤ 0 →
      detect_pulsed_single_tone pp l = .error (.valueError "bw_hz must be > 0")) ∧
    (∀ (pp : PulsedParams) (l : List FreqGroup), 0 < pp.bw_hz → 0 < pp.mode_bin_hz →
      pp.max_on_ms < pp.min_on_ms →
      detect_pulsed_single_tone pp l = .error (.valueError "min_on_ms must be <= max_on_ms")) ∧
    (∀ (pp : PulsedParams) (l : List FreqGroup), 0 < pp.bw_hz → 0 < pp.mode_bin_hz →
      pp.min_on_ms ≤ pp.max_on_ms → pp.min_off_ms ≤ pp.max_off_ms →
      pp.auto_center_high ≤ pp.auto_center_low →
      detect_pulsed_single_tone pp l =
        .error (.valueError "auto_center_band must be (low < high)")) ∧
    (∀ (p : TwoToneParams) (l : List FreqGroup), p.min_tone_a_length ≤ 0 →
      detect_two_tone_tones p l = .error (.valueError "min_tone_a_length must be > 0")) ∧
    (∀ (p : LongToneParams) (l : List FreqGroup), p.min_duration ≤ 0 →
      detect_long_tones p l = .error (.valueError "min_duration must be > 0")) ∧
    (∀ (p : WarbleParams) (l : List FreqGroup), p.interval_length < 0 →
      detect_warble_tones p l = .error (.valueError "interval_length must be >= 0")) ∧
    (∀ m1 m2 : String, PyError.valueError m1 ≠ PyError.audioLoadError m2 ∧
      PyError.valueError m1 ≠ PyError.frequencyExtractionError m2 ∧
      PyError.valueError m1 ≠ PyError.toneDetectionError m2 ∧
      PyError.valueError m1 ≠ PyError.ffmpegNotFoundError m2) := by
  refine ⟨?_, ?_, ?_, ?_, ?_, ?_, ?_⟩
  · intro pp l h
    rw [detect_pulsed_single_tone, if_pos h]
  · intro pp l h1 h2 h3
    rw [detect_pulsed_single_tone, if_neg (not_le.mpr h1), if_neg (not_le.mpr h2),
      if_pos h3]
  · intro pp l h1 h2 h3 h4 h5
    rw [detect_pulsed_single_tone, if_neg (not_le.mpr h1), if_neg (not_le.mpr h2),
      if_neg (not_lt.mpr h3), if_neg (not_lt.mpr h4), if_pos (by simpa using h5)]
  · intro p l h
    rw [detect_two_tone_tones, if_pos h]
  · intro p l h
    rw [detect_long_tones, if_pos h]
  · intro p l h
    rw [detect_warble_tones, if_pos h]
  · intro m1 m2
    refine ⟨?_, ?_, ?_, ?_⟩ <;> intro h <;> cases h

/-- Closed instance of `detectors_fail_fast_with_valueerror` at a concrete
out-of-bounds configuration. -/
theorem detectors_fail_fast_with_valueerror_witness :
    detect_pulsed_single_tone
      { bw_hz := 25, min_cycles := 6, min_on_ms := 900, max_on_ms := 120,
        min_off_ms := 25, max_off_ms := 350, time_resolution_ms := 50,
        auto_center_low := 200, auto_center_high := 3000, mode_bin_hz := 5 } [] =
      .error (.valueError "min_on_ms must be <= max_on_ms") :=
  detectors_fail_fast_with_valueerror.2.1 _ [] (by norm_num) (by norm_num) (by norm_num)


/-! ## Evaluation of the Quick-Call/long example, and C1 -/

theorem qcLongPP_eq : qcLongConfig.pulsedParams = qcLongPP := by rfl

theorem qcLongTT_eq : qcLongConfig.twoToneParams = qcLongTT := by rfl

theorem qcLongLT_eq : qcLongConfig.longToneParams = qcLongLT := by rfl

theorem qcLongGuard_eq : qcLongConfig.guard_s = 1/4 := by
  norm_num [Config.guard_s, qcLongConfig, defaultConfig]

theorem qcLongTimeline_eq :
    (qcLongInput.map (groupTimeline 200 3000 (1/2))).flatten = qcLongTimeline := by
  norm_num [qcLongInput, qcLongTimeline, groupTimeline, timelineCount, ceil_as_floor,
    bandFilter, pymedian, List.insertionSort, List.orderedInsert, List.range_succ, round3,
    round_to, round_eq, List.cons_ne_nil]
  simp only [Int.reduceToNat]
  norm_num [List.range_succ, round3, round_to, round_eq]

theorem qcLongWB_eq : weightedBins qcLongPP qcLongInput = [] := by
  norm_num [weightedBins, qcLongPP, qcLongInput, bandFilter, stable_med, pymedian,
    List.insertionSort, List.orderedInsert, List.cons_ne_nil]

theorem qcLongVals_eq :
    qcLongTimeline.filterMap
      (fun tf => if (200 : ℚ) ≤ tf.2 ∧ tf.2 ≤ 3000 then some tf.2 else none) = qcLongVals := by
  norm_num [qcLongTimeline, qcLongVals, List.filterMap]

theorem qcLongCnt_eq :
    qcLongVals.foldl (fun acc v => accAdd ⌊v / 5⌋ 1 acc) [] =
      [((200 : ℤ), (4 : ℚ)), (300, 6)] := by
  norm_num [qcLongVals, accAdd]

theorem qcLongCenter_eq :
    pulsedCenter qcLongPP qcLongInput qcLongTimeline = some 1500 := by
  simp only [pulsedCenter]
  rw [qcLongWB_eq]
  rw [if_neg (by simp)]
  rw [show qcLongPP.auto_center_low = 200 from rfl,
    show qcLongPP.auto_center_high = 3000 from rfl,
    show qcLongPP.mode_bin_hz = 5 from rfl]
  rw [qcLongVals_eq]
  rw [if_neg (show ¬ qcLongVals = [] by simp [qcLongVals])]
  rw [qcLongCnt_eq]
  rw [show topKey [((200 : ℤ), (4 : ℚ)), (300, 6)] = 300 by norm_num [topKey]]
  rw [show qcLongVals.filter (fun v => decide (⌊v / 5⌋ = 300)) =
      [1500, 1500, 1500, 1500, 1500, 1500] by norm_num [qcLongVals]]
  norm_num [pymedian, List.insertionSort, List.orderedInsert]

theorem qcLongRuns_eq :
    buildRuns (pulsed_in_band 1500 25) (1/2) qcLongTimeline = qcLongRuns := by
  norm_num [buildRuns, buildRunsAux, pulsed_in_band, qcLongTimeline, qcLongRuns]

theorem qcLongScan_eq :
    pulsedScanLoop qcLongPP qcLongRuns 1500 2 0 1 = [] := by
  norm_num [pulsedScanLoop, qcLongRuns]

theorem qcLongPulsed_eq : pulsedRun qcLongPP qcLongInput = [] := by
  have h1 := qcLongTimeline_eq
  have h2 := qcLongCenter_eq
  have h3 := qcLongRuns_eq
  have h4 := qcLongScan_eq
  simp only [pulsedRun]
  rw [if_neg (show ¬ qcLongInput = [] by simp [qcLongInput])]
  rw [show ((qcLongPP.time_resolution_ms : ℚ) / 1000) = 1/2 by norm_num [qcLongPP]]
  rw [show qcLongPP.auto_center_low = 200 from by norm_num [qcLongPP]]
  rw [show qcLongPP.auto_center_high = 3000 from by norm_num [qcLongPP]]
  rw [h1]
  rw [if_neg (show ¬ qcLongTimeline = [] by simp [qcLongTimeline])]
  rw [h2]
  simp only []
  rw [show qcLongPP.bw_hz = 25 by norm_num [qcLongPP]]
  rw [h3]
  rw [if_neg (show ¬ qcLongRuns.length < 2 by simp [qcLongRuns])]
  rw [show qcLongRuns.length = 2 by simp [qcLongRuns]]
  exact h4

set_option maxHeartbeats 1000000 in
theorem qcLongTwoTone_eq :
    twoToneScan qcLongTT none 0 qcLongInput = [qcLongTTHit] := by
  norm_num [twoToneScan, qcLongTT, qcLongInput, qcLongTTHit, twoTonePass, group_is_stable,
    group_center, pymedian, List.insertionSort, List.orderedInsert, separated_enough,
    round1, round3, round_to, round_eq, List.cons_ne_nil]

theorem qcLongWindows_eq : qc_windows_B [qcLongTTHit] (1/4) = [(11/4, 25/4)] := by
  norm_num [qc_windows_B, qcLongTTHit]

theorem qcLongG2_eq :
    filter_groups_outside qcLongInput [(11/4, 25/4)] (1/4) = [⟨0, 2, 2, [1000, 1000]⟩] := by
  norm_num [filter_groups_outside, pyoverlaps, qcLongInput, List.filter]

theorem qcLongLong_eq :
    longToneLoop qcLongLT 0 [⟨0, 2, 2, [1000, 1000]⟩] = [qcLongLTHit] := by
  norm_num [longToneLoop, qcLongLT, qcLongLTHit, group_is_stable, group_center, pymedian,
    List.insertionSort, List.orderedInsert, round1, round_to, round_eq, List.cons_ne_nil]

theorem qcLongG3_eq :
    filter_groups_outside [⟨0, 2, 2, [1000, 1000]⟩] [(0, 2)] (1/4) = [] := by
  norm_num [filter_groups_outside, pyoverlaps, List.filter]

theorem qcLong_cascade_eq :
    tone_detect_cascade qcLongConfig qcLongInput =
      .ok ([], [qcLongTTHit], [qcLongLTHit], []) := by
  simp only [tone_detect_cascade, qcLongGuard_eq, qcLongPP_eq, qcLongTT_eq, qcLongLT_eq]
  rw [detect_pulsed_ok qcLongPP qcLongInput (by norm_num [qcLongPP]) (by norm_num [qcLongPP])
    (by norm_num [qcLongPP]) (by norm_num [qcLongPP]) (by norm_num [qcLongPP])]
  rw [qcLongPulsed_eq, except_bind_ok]
  simp only [List.map_nil]
  rw [filter_groups_outside_nil]
  rw [detect_two_tone_ok qcLongTT qcLongInput (by norm_num [qcLongTT]) (by norm_num [qcLongTT])
    (by norm_num [qcLongTT]) (by norm_num [qcLongTT]) (by norm_num [qcLongTT])]
  rw [qcLongTwoTone_eq, except_bind_ok]
  rw [qcLongWindows_eq, qcLongG2_eq]
  rw [detect_long_ok qcLongLT _ (by norm_num [qcLongLT]) (by norm_num [qcLongLT])]
  rw [qcLongLong_eq, except_bind_ok]
  rw [show ([qcLongLTHit].map (fun h => (h.start, h.end_s))) = [((0 : ℚ), (2 : ℚ))] by
    norm_num [qcLongLTHit]]
  rw [qcLongG3_eq]
  rw [detect_warble_ok _ _ (by norm_num [Config.warbleParams, qcLongConfig, defaultConfig])
    (by norm_num [Config.warbleParams, qcLongConfig, defaultConfig])
    (by norm_num [Config.warbleParams, qcLongConfig, defaultConfig])
    (by norm_num [Config.warbleParams, qcLongConfig, defaultConfig])]
  rw [show warbleOuter qcLongConfig.warbleParams (List.length ([] : List FreqGroup) + 1) 1 []
      = [] from rfl]
  rfl

/-- C1: FALSE as stated. With all four detectors enabled, on `qcLongInput`
under `qcLongConfig` the cascade reports a Two-Tone hit spanning [0, 6] and
a Long hit spanning [0, 2] (the Quick Call A tone, which B-only masking
leaves visible to the long-tone stage): two hits from different detectors
whose intervals overlap far beyond the guard of 1/4 s. In particular the
Long hit emitted after Two-Tone masking overlaps the Two-Tone hit's
interval. -/
theorem cascade_long_hit_overlaps_two_tone_interval :
    tone_detect_cascade qcLongConfig qcLongInput =
      .ok ([], [qcLongTTHit], [qcLongLTHit], []) ∧
    qcLongLTHit.start = 0 ∧ qcLongLTHit.end_s = 2 ∧
    qcLongTTHit.start = 0 ∧ qcLongTTHit.end_s = 6 ∧
    qcLongConfig.guard_s = 1/4 ∧
    pyoverlaps (0, 2) (0, 6) (1/4) = true := by
  refine ⟨qcLong_cascade_eq, rfl, rfl, rfl, rfl, qcLongGuard_eq, by norm_num [pyoverlaps]⟩

/-- C1 amended: after cascade filtering, a Long hit's interval never
overlaps — beyond the guard — a masked window of an earlier stage: neither
any Pulsed hit's interval nor any Two-Tone hit's guard-expanded B-tone
window (end − tone_b_length − guard .. end + guard). A Long hit may still
overlap the unmasked A-tone portion of a Two-Tone hit's [start, end]
interval, as B-only masking intends. -/
theorem long_hits_avoid_masked_windows (c : Config) (matched : List FreqGroup)
    (pulsed : List PulsedHit) (tt : List TwoToneHit) (lt : List LongToneHit)
    (hl : List WarbleHit)
    (hok : tone_detect_cascade c matched = .ok (pulsed, tt, lt, hl)) :
    (∀ lh ∈ lt, ∀ th ∈ tt,
      pyoverlaps (lh.start, lh.end_s)
        (max 0 ((th.end_s - th.tone_b_length) - c.guard_s), th.end_s + c.guard_s)
        c.guard_s = false) ∧
    (∀ lh ∈ lt, ∀ ph ∈ pulsed,
      pyoverlaps (lh.start, lh.end_s) (ph.start, ph.end_s) c.guard_s = false) := by
  rw [tone_detect_cascade] at hok
  cases hp : detect_pulsed_single_tone c.pulsedParams matched with
  | error e => rw [hp] at hok; cases hok
  | ok phits =>
    rw [hp, except_bind_ok] at hok
    simp only [] at hok
    cases htt : detect_two_tone_tones c.twoToneParams
        (filter_groups_outside matched (phits.map (fun h => (h.start, h.end_s)))
          c.guard_s) with
    | error e => rw [htt] at hok; cases hok
    | ok thits =>
      rw [htt, except_bind_ok] at hok
      cases hlt : detect_long_tones c.longToneParams
          (filter_groups_outside
            (filter_groups_outside matched (phits.map (fun h => (h.start, h.end_s)))
              c.guard_s)
            (qc_windows_B thits c.guard_s) c.guard_s) with
      | error e => rw [hlt] at hok; cases hok
      | ok lhits =>
        rw [hlt, except_bind_ok] at hok
        cases hhl : detect_warble_tones c.warbleParams
            (filter_groups_outside
              (filter_groups_outside
                (filter_groups_outside matched (phits.map (fun h => (h.start, h.end_s)))
                  c.guard_s)
                (qc_windows_B thits c.guard_s) c.guard_s)
              (lhits.map (fun h => (h.start, h.end_s))) c.guard_s) with
        | error e => rw [hhl] at hok; cases hok
        | ok whits =>
          rw [hhl, except_bind_ok] at hok
          simp only [pure, Except.pure, Except.ok.injEq, Prod.mk.injEq] at hok
          obtain ⟨hpe, hte, hle, hwe⟩ := hok
          subst hpe; subst hte; subst hle; subst hwe
          have hlo := detect_long_ok_inv hlt
          subst hlo
          constructor
          · intro lh hlh th hth
            obtain ⟨g, hg, hstart, hend, -⟩ := longToneLoop_mem hlh
            obtain ⟨-, hwin⟩ := filter_groups_outside_spec hg
            have hmem : (max 0 ((th.end_s - th.tone_b_length) - c.guard_s),
                th.end_s + c.guard_s) ∈ qc_windows_B thits c.guard_s :=
              List.mem_map_of_mem _ hth
            have := hwin _ hmem
            rwa [hstart, hend]
          · intro lh hlh ph hph
            obtain ⟨g, hg, hstart, hend, -⟩ := longToneLoop_mem hlh
            obtain ⟨hg1, -⟩ := filter_groups_outside_spec hg
            obtain ⟨-, hwin⟩ := filter_groups_outside_spec hg1
            have hmem : (ph.start, ph.end_s) ∈ phits.map (fun h => (h.start, h.end_s)) :=
              List.mem_map_of_mem _ hph
            have := hwin _ hmem
            rwa [hstart, hend]

/-- Closed instance of `long_hits_avoid_masked_windows` on `qcLongInput`:
the Long hit [0, 2] does not overlap the guard-expanded B-tone window of
the Two-Tone hit. -/
theorem long_hits_avoid_masked_windows_witness :
    pyoverlaps (qcLongLTHit.start, qcLongLTHit.end_s)
      (max 0 ((qcLongTTHit.end_s - qcLongTTHit.tone_b_length) - qcLongConfig.guard_s),
        qcLongTTHit.end_s + qcLongConfig.guard_s) qcLongConfig.guard_s = false :=
  (long_hits_avoid_masked_windows qcLongConfig qcLongInput [] [qcLongTTHit] [qcLongLTHit] []
    qcLong_cascade_eq).1 qcLongLTHit (by simp) qcLongTTHit (by simp)


/-! ## C5 -/

/-- C5: FALSE as stated. On `warbleClusterInput` (stable centers 1000, 1040,
1014, 1040 Hz with min_pair_separation 40 Hz, tone_bw 25 Hz,
interval_length 0.2 s, min_alternations 4) the detector emits a hit whose
reported pair is [1007, 1040] — the cluster medians — separated by only
33 Hz < 40 Hz; and the run's third group starts 0.2 s + 1 µs after the
second ends, an inter-group gap exceeding interval_length (the code allows
a 1e-6 slack). -/
theorem warble_reported_pair_can_violate_separation :
    (detect_warble_tones warbleClusterParams warbleClusterInput).map
      (fun hits => hits.map (fun h => (h.detected, h.start, h.end_s, h.length,
        h.alternations))) = .ok [([1007, 1040], 0, 11/5, 11/5, 4)] ∧
    |(1040 : ℚ) - 1007| < 40 ∧
    (warbleClusterInput.getD 2 default).start_s - (warbleClusterInput.getD 1 default).end_s =
      1/5 + 1/1000000 ∧
    (1/5 : ℚ) < 1/5 + 1/1000000 ∧
    warbleClusterParams.interval_length = 1/5 ∧
    warbleClusterParams.min_pair_separation_hz = 40 := by
  refine ⟨?_, by norm_num, ?_, by norm_num, by norm_num [warbleClusterParams],
    by norm_num [warbleClusterParams]⟩
  · rw [detect_warble_ok warbleClusterParams warbleClusterInput
      (by norm_num [warbleClusterParams]) (by norm_num [warbleClusterParams])
      (by norm_num [warbleClusterParams]) (by norm_num [warbleClusterParams])]
    simp only [Except.map]
    norm_num [warbleClusterInput, warbleClusterParams, warbleOuter, warbleScan, mkWarbleHit,
      group_is_stable, group_center, wclose, separated_enough, pymedian, List.insertionSort,
      List.orderedInsert, round1, round2, round_to, round_eq, List.cons_ne_nil,
      List.getLastD, List.headI, List.filter]
  · norm_num [warbleClusterInput]


theorem pymedian_mem_Icc {xs : List ℚ} (hne : xs ≠ []) {lo hi : ℚ}
    (h : ∀ x ∈ xs, lo ≤ x ∧ x ≤ hi) : lo ≤ pymedian xs ∧ pymedian xs ≤ hi := by
  have hperm := List.perm_insertionSort (· ≤ ·) xs
  have hlen : (List.insertionSort (· ≤ ·) xs).length = xs.length := hperm.length_eq
  have hmem : ∀ i : ℕ, i < xs.length →
      lo ≤ (List.insertionSort (· ≤ ·) xs).getD i 0 ∧
        (List.insertionSort (· ≤ ·) xs).getD i 0 ≤ hi := by
    intro i hi2
    have hlt : i < (List.insertionSort (· ≤ ·) xs).length := by omega
    have hin : (List.insertionSort (· ≤ ·) xs).getD i 0 ∈ List.insertionSort (· ≤ ·) xs := by
      rw [List.getD_eq_getElem _ _ hlt]
      exact List.getElem_mem hlt
    exact h _ (hperm.subset hin)
  have hn : 0 < xs.length := List.length_pos.mpr hne
  rw [pymedian]
  rw [if_neg (by omega)]
  split
  · exact hmem _ (by omega)
  · have h1 := hmem (xs.length / 2 - 1) (by omega)
    have h2 := hmem (xs.length / 2) (by omega)
    constructor
    · linarith [h1.1, h2.1]
    · linarith [h1.2, h2.2]

theorem warbleScan_rest_suffix (p : WarbleParams) :
    ∀ (l seq : List FreqGroup) (tones : List ℚ),
      (warbleScan p seq tones l).2.2 <:+ l := by
  intro l
  induction l with
  | nil => intro seq tones; simp [warbleScan]
  | cons g rest ih =>
    intro seq tones
    simp only [warbleScan]
    repeat' split
    all_goals first
      | exact (List.suffix_cons g rest)
      | exact ((ih _ _).trans (List.suffix_cons g rest))


theorem wclose_eq_true_iff {a b t : ℚ} : wclose a b t = true ↔ |a - b| ≤ t := by
  simp [wclose]

theorem separated_enough_eq_true_iff {a b s : ℚ} :
    separated_enough a b s = true ↔ 0 < a ∧ 0 < b ∧ s ≤ |a - b| := by
  rw [separated_enough]
  split
  · next h =>
    simp only [Bool.false_eq_true, false_iff]
    intro hc
    rcases h with h | h
    · exact absurd hc.1 (not_lt.mpr h)
    · exact absurd hc.2.1 (not_lt.mpr h)
  · next h =>
    push_neg at h
    simp only [decide_eq_true_eq]
    exact Iff.intro (fun hs => ⟨h.1, h.2, hs⟩) (fun hc => hc.2.2)

theorem warbleScan_spec (p : WarbleParams) (hbw : 0 < p.tone_bw_hz) :
    ∀ (l seq : List FreqGroup) (tones : List ℚ),
      warbleSeqInv p seq tones →
      warbleSeqInv p (warbleScan p seq tones l).1 (warbleScan p seq tones l).2.1 ∧
      (∀ x ∈ (warbleScan p seq tones l).1, x ∈ seq ∨ x ∈ l) := by
  intro l
  induction l with
  | nil =>
    intro seq tones hinv
    exact ⟨hinv, fun x hx => Or.inl hx⟩
  | cons g rest ih =>
    intro seq tones hinv
    simp only [warbleScan]
    by_cases hrej : g.freqs = [] ∨ g.freqs.headI ≤ 0 ∨ g.freqs.length < 2
    · rw [if_pos hrej]
      exact ⟨hinv, fun x hx => Or.inl hx⟩
    rw [if_neg hrej]
    by_cases hstab : group_is_stable g p.tone_bw_hz = true
    · rw [if_neg (not_not_intro hstab)]
      by_cases hseq : seq = []
      · rw [if_pos hseq]
        have hinv2 : warbleSeqInv p [g] [group_center g] :=
          Or.inr (Or.inl ⟨g, rfl, rfl, hstab⟩)
        obtain ⟨h1, h2⟩ := ih [g] [group_center g] hinv2
        refine ⟨h1, fun x hx => ?_⟩
        rcases h2 x hx with hx1 | hx2
        · simp only [List.mem_singleton] at hx1
          exact Or.inr (hx1 ▸ List.mem_cons_self g rest)
        · exact Or.inr (List.mem_cons_of_mem _ hx2)
      · rw [if_neg hseq]
        by_cases hgap : g.start_s - (seq.getLastD default).end_s ≤ p.interval_length + 1/1000000
        · rw [if_neg (not_not_intro hgap)]
          by_cases hclose : wclose (group_center g) (group_center (seq.getLastD default))
              p.tone_bw_hz = true
          · rw [if_pos hclose]
            exact ⟨hinv, fun x hx => Or.inl hx⟩
          · rw [if_neg hclose]
            -- resolve the state from the invariant
            rcases hinv with ⟨hs, -⟩ | ⟨g0, hs, ht, hst0⟩ | ⟨a, b, ht, hne, hhead, hexb, hsep,
                ha, hb, hall, hchain⟩
            · exact absurd hs hseq
            · -- state (b): tones = [center g0], length 1
              subst hs; subst ht
              rw [if_pos (by simp)]
              by_cases hsep2 : separated_enough ([group_center g0].headI) (group_center g)
                  p.min_pair_separation_hz = true
              · rw [if_pos hsep2]
                have hcc : wclose (group_center g) (group_center g) p.tone_bw_hz = true := by
                  rw [wclose_eq_true_iff]
                  simpa using le_of_lt hbw
                rw [if_neg (by
                  simp only [not_not]
                  refine List.any_eq_true.mpr ⟨group_center g, by simp, hcc⟩)]
                rw [separated_enough_eq_true_iff] at hsep2
                simp only [List.headI] at hsep2
                have hinv2 : warbleSeqInv p ([g0] ++ [g])
                    ([group_center g0] ++ [group_center g]) := by
                  refine Or.inr (Or.inr ⟨group_center g0, group_center g, rfl, by simp,
                    by simp, ⟨g, by simp, rfl⟩, ?_, hsep2.1, hsep2.2.1, ?_, ?_⟩)
                  · exact hsep2.2.2
                  · intro x hx
                    simp only [List.cons_append, List.nil_append, List.mem_cons,
                      List.not_mem_nil, or_false] at hx
                    rcases hx with hx | hx
                    · subst hx
                      exact ⟨hst0, Or.inl (by simpa using le_of_lt hbw)⟩
                    · subst hx
                      exact ⟨hstab, Or.inr (by simpa using le_of_lt hbw)⟩
                  · refine List.chain'_pair.mpr ?_
                    rw [warbleGapOk]
                    simpa using hgap
                obtain ⟨h1, h2⟩ := ih _ _ hinv2
                refine ⟨h1, fun x hx => ?_⟩
                rcases h2 x hx with hx1 | hx2
                · simp only [List.cons_append, List.nil_append, List.mem_cons,
                    List.not_mem_nil, or_false] at hx1
                  rcases hx1 with hx1 | hx1
                  · exact Or.inl (by simp [hx1])
                  · exact Or.inr (hx1 ▸ List.mem_cons_self g rest)
                · exact Or.inr (List.mem_cons_of_mem _ hx2)
              · rw [if_neg hsep2]
                exact ⟨Or.inr (Or.inl ⟨g0, rfl, rfl, hst0⟩), fun x hx => Or.inl hx⟩
            · -- state (c): tones = [a, b], length 2
              subst ht
              rw [if_neg (by simp)]
              by_cases hany : [a, b].any (fun ct => wclose (group_center g) ct p.tone_bw_hz)
                  = true
              · rw [if_neg (not_not_intro hany)]
                have hinv2 : warbleSeqInv p (seq ++ [g]) [a, b] := by
                  refine Or.inr (Or.inr ⟨a, b, rfl, by simp [hseq], ?_, ?_, hsep, ha, hb,
                    ?_, ?_⟩)
                  · cases seq with
                    | nil => exact absurd rfl hseq
                    | cons s0 srest => simpa using hhead
                  · obtain ⟨gb, hgb, hgbe⟩ := hexb
                    exact ⟨gb, List.mem_append_left _ hgb, hgbe⟩
                  · intro x hx
                    rcases List.mem_append.mp hx with hx | hx
                    · exact hall x hx
                    · simp only [List.mem_singleton] at hx
                      subst hx
                      refine ⟨hstab, ?_⟩
                      rcases List.any_eq_true.mp hany with ⟨ct, hct, hw⟩
                      rw [wclose_eq_true_iff] at hw
                      simp only [List.mem_cons, List.mem_singleton] at hct
                      rcases hct with hct | hct | hct
                      · subst hct; exact Or.inl hw
                      · subst hct; exact Or.inr hw
                      · cases hct
                  · rw [List.chain'_append]
                    refine ⟨hchain, List.chain'_singleton _, fun y hy z hz => ?_⟩
                    simp only [List.head?_cons, Option.mem_def, Option.some.injEq] at hz
                    subst hz
                    have : seq.getLast? = some (seq.getLastD default) := by
                      cases seq with
                      | nil => exact absurd rfl hseq
                      | cons s0 srest =>
                        rw [List.getLastD_eq_getLast?, List.getLast?_cons]
                        simp
                    rw [this] at hy
                    simp only [Option.mem_def, Option.some.injEq] at hy
                    subst hy
                    rw [warbleGapOk]
                    simpa using hgap
                obtain ⟨h1, h2⟩ := ih _ _ hinv2
                refine ⟨h1, fun x hx => ?_⟩
                rcases h2 x hx with hx1 | hx2
                · rcases List.mem_append.mp hx1 with hx1 | hx1
                  · exact Or.inl hx1
                  · simp only [List.mem_singleton] at hx1
                    exact Or.inr (hx1 ▸ List.mem_cons_self g rest)
                · exact Or.inr (List.mem_cons_of_mem _ hx2)
              · rw [if_pos hany]
                exact ⟨Or.inr (Or.inr ⟨a, b, rfl, hne, hhead, hexb, hsep, ha, hb, hall,
                  hchain⟩), fun x hx => Or.inl hx⟩
        · rw [if_pos hgap]
          exact ⟨hinv, fun x hx => Or.inl hx⟩
    · rw [if_pos hstab]
      exact ⟨hinv, fun x hx => Or.inl hx⟩


theorem group_is_stable_posCount {g : FreqGroup} {bw : ℚ}
    (h : group_is_stable g bw = true) :
    2 ≤ (g.freqs.filter (fun f => decide (0 < f))).length := by
  rw [group_is_stable] at h
  split at h
  · cases h
  · next hlen => omega

theorem warbleOuter_spec (p : WarbleParams) (hbw : 0 < p.tone_bw_hz) :
    ∀ (fuel : ℕ) (l : List FreqGroup) (idx : ℕ) (h : WarbleHit),
      h ∈ warbleOuter p fuel idx l →
      ∃ i seq a b, h = mkWarbleHit i seq [a, b] ∧ (∀ g ∈ seq, g ∈ l) ∧
        p.min_alternations ≤ seq.length ∧ warbleSeqInv p seq [a, b] := by
  intro fuel
  induction fuel with
  | zero => intro l idx h hmem; simp [warbleOuter] at hmem
  | succ fuel ih =>
    intro l idx h hmem
    cases l with
    | nil => simp [warbleOuter] at hmem
    | cons g rest =>
      simp only [warbleOuter] at hmem
      split at hmem
      · next hcond =>
        rcases List.mem_cons.mp hmem with heq | hmem2
        · obtain ⟨hinv, hmem3⟩ := warbleScan_spec p hbw (g :: rest) [] []
            (Or.inl ⟨rfl, rfl⟩)
          have hlen2 : (warbleScan p [] [] (g :: rest)).2.1.length = 2 := hcond.2
          obtain ⟨a, b, hab⟩ : ∃ a b, (warbleScan p [] [] (g :: rest)).2.1 = [a, b] := by
            cases ht : (warbleScan p [] [] (g :: rest)).2.1 with
            | nil => rw [ht] at hlen2; cases hlen2
            | cons x xs =>
              cases xs with
              | nil => rw [ht] at hlen2; cases hlen2
              | cons y ys =>
                cases ys with
                | nil => exact ⟨x, y, rfl⟩
                | cons z zs => rw [ht] at hlen2; simp at hlen2
          refine ⟨idx, (warbleScan p [] [] (g :: rest)).1, a, b, by rw [heq, hab], ?_, ?_, ?_⟩
          · intro x hx
            rcases hmem3 x hx with hx1 | hx1
            · cases hx1
            · exact hx1
          · exact hcond.1
          · rw [hab] at hinv; exact hinv
        · obtain ⟨i, seq, a, b, h1, h2, h3, h4⟩ := ih _ (idx + 1) h hmem2
          exact ⟨i, seq, a, b, h1,
            fun x hx => (warbleScan_rest_suffix p (g :: rest) [] []).subset (h2 x hx),
            h3, h4⟩
      · obtain ⟨i, seq, a, b, h1, h2, h3, h4⟩ := ih _ idx h hmem
        exact ⟨i, seq, a, b, h1,
          fun x hx => (warbleScan_rest_suffix p (g :: rest) [] []).subset (h2 x hx),
          h3, h4⟩


/-- The hit `detect_warble_tones` reports on `warbleClusterInput`. -/
def warbleClusterHit : WarbleHit :=
  { tone_id := "hl_" ++ toString 1, detected := [1007, 1040], start := 0, end_s := 11/5,
    length := 11/5, alternations := 4 }

theorem warbleClusterHits_eq :
    detect_warble_tones warbleClusterParams warbleClusterInput = .ok [warbleClusterHit] := by
  rw [detect_warble_ok warbleClusterParams warbleClusterInput
    (by norm_num [warbleClusterParams]) (by norm_num [warbleClusterParams])
    (by norm_num [warbleClusterParams]) (by norm_num [warbleClusterParams])]
  norm_num [warbleClusterInput, warbleClusterParams, warbleOuter, warbleScan, mkWarbleHit,
    group_is_stable, group_center, wclose, separated_enough, pymedian, List.insertionSort,
    List.orderedInsert, round1, round2, round_to, round_eq, List.cons_ne_nil,
    List.getLastD, List.headI, List.filter, warbleClusterHit]

/-- The detected field of a warble hit with a two-tone allowed list, as the
sorted rounded pair of cluster aggregates. -/
theorem mkWarbleHit_detected (idx : ℕ) (seq : List FreqGroup) (a b : ℚ) :
    (mkWarbleHit idx seq [a, b]).detected =
      [round1 (min
          (if (seq.map group_center).filter (fun fc => decide (|fc - a| < |fc - b|)) = []
            then a
            else pymedian ((seq.map group_center).filter
              (fun fc => decide (|fc - a| < |fc - b|))))
          (if (seq.map group_center).filter (fun fc => ¬ decide (|fc - a| < |fc - b|)) = []
            then b
            else pymedian ((seq.map group_center).filter
              (fun fc => ¬ decide (|fc - a| < |fc - b|))))),
        round1 (max
          (if (seq.map group_center).filter (fun fc => decide (|fc - a| < |fc - b|)) = []
            then a
            else pymedian ((seq.map group_center).filter
              (fun fc => decide (|fc - a| < |fc - b|))))
          (if (seq.map group_center).filter (fun fc => ¬ decide (|fc - a| < |fc - b|)) = []
            then b
            else pymedian ((seq.map group_center).filter
              (fun fc => ¬ decide (|fc - a| < |fc - b|)))))] := rfl

/-- C5 (amended): every warble hit arises from a run of at least
`min_alternations` stable groups of the input whose consecutive gaps pass
the gap test (`interval_length` plus the code's 1e-6 slack) and whose
centers all lie within `tone_bw_hz` of one of two allowed tones `a`, `b`
that are at least `min_pair_separation_hz` apart; the reported pair is the
rounded sorted pair of cluster medians, each median lying within
`tone_bw_hz` of its tone, so the reported separation is only bounded below
by `min_pair_separation_hz - 2 * tone_bw_hz`. -/
theorem warble_hit_run_properties {p : WarbleParams} {l : List FreqGroup}
    {hits : List WarbleHit} (hok : detect_warble_tones p l = .ok hits) :
    ∀ h ∈ hits, p.min_alternations ≤ h.alternations ∧
      ∃ seq a b,
        seq ≠ [] ∧ (∀ g ∈ seq, g ∈ l) ∧ h.alternations = seq.length ∧
        h.start = seq.headI.start_s ∧ h.end_s = (seq.getLastD default).end_s ∧
        List.Chain' (warbleGapOk p) seq ∧
        (∀ g ∈ seq, group_is_stable g p.tone_bw_hz = true) ∧
        p.min_pair_separation_hz ≤ |a - b| ∧
        (∀ g ∈ seq, |group_center g - a| ≤ p.tone_bw_hz ∨
          |group_center g - b| ≤ p.tone_bw_hz) ∧
        ∃ lows highs,
          lows = (seq.map group_center).filter (fun fc => decide (|fc - a| < |fc - b|)) ∧
          highs = (seq.map group_center).filter
            (fun fc => ¬ decide (|fc - a| < |fc - b|)) ∧
          lows ≠ [] ∧ highs ≠ [] ∧
          (∀ x ∈ lows, |x - a| ≤ p.tone_bw_hz) ∧
          (∀ x ∈ highs, |x - b| ≤ p.tone_bw_hz) ∧
          h.detected = [round1 (min (pymedian lows) (pymedian highs)),
            round1 (max (pymedian lows) (pymedian highs))] ∧
          p.min_pair_separation_hz - 2 * p.tone_bw_hz ≤
            |pymedian highs - pymedian lows| := by
  obtain ⟨hhits, hint, halt, hbw, hsep0⟩ := detect_warble_ok_inv hok
  subst hhits
  intro h hmem
  obtain ⟨i, seq, a0, b0, heq, hmeml, hlen, hinv⟩ :=
    warbleOuter_spec p hbw (l.length + 1) l 1 h hmem
  have halts : h.alternations = seq.length := by rw [heq]; rfl
  rcases hinv with ⟨-, ht⟩ | ⟨g0, -, ht, -⟩ | ⟨a, b, ht, hne, hhead, hexb, hsep2, ha, hb,
      hall, hchain⟩
  · cases ht
  · cases ht
  rw [ht] at heq
  refine ⟨by rw [halts]; exact hlen, seq, a, b, hne, hmeml, halts, by rw [heq]; rfl,
    by rw [heq]; rfl, hchain, fun g hg => (hall g hg).1, hsep2,
    fun g hg => (hall g hg).2, ?_⟩
  have hheadmem : seq.headI ∈ seq := by
    cases seq with
    | nil => exact absurd rfl hne
    | cons s0 srest => exact List.mem_cons_self _ _
  have hamem : a ∈ (seq.map group_center).filter
      (fun fc => decide (|fc - a| < |fc - b|)) := by
    refine List.mem_filter.mpr ⟨hhead ▸ List.mem_map_of_mem group_center hheadmem, ?_⟩
    simp only [decide_eq_true_eq, sub_self, abs_zero]
    exact lt_of_lt_of_le hsep0 hsep2
  obtain ⟨gb, hgb, hgbc⟩ := hexb
  have hbmem : b ∈ (seq.map group_center).filter
      (fun fc => ¬ decide (|fc - a| < |fc - b|)) := by
    refine List.mem_filter.mpr ⟨hgbc ▸ List.mem_map_of_mem group_center hgb, ?_⟩
    simp only [sub_self, abs_zero, decide_eq_true_eq]
    simp only [decide_eq_true_eq, not_lt]
    exact abs_nonneg _
  have hlne : (seq.map group_center).filter
      (fun fc => decide (|fc - a| < |fc - b|)) ≠ [] := List.ne_nil_of_mem hamem
  have hhne : (seq.map group_center).filter
      (fun fc => ¬ decide (|fc - a| < |fc - b|)) ≠ [] := List.ne_nil_of_mem hbmem
  have hlowsbound : ∀ x ∈ (seq.map group_center).filter
      (fun fc => decide (|fc - a| < |fc - b|)), |x - a| ≤ p.tone_bw_hz := by
    intro x hx
    obtain ⟨hxm, hxp⟩ := List.mem_filter.mp hx
    obtain ⟨g, hgmem, hgc⟩ := List.mem_map.mp hxm
    simp only [decide_eq_true_eq] at hxp
    rcases (hall g hgmem).2 with hcl | hcl
    · rwa [hgc] at hcl
    · rw [hgc] at hcl
      exact le_of_lt (lt_of_lt_of_le hxp hcl)
  have hhighsbound : ∀ x ∈ (seq.map group_center).filter
      (fun fc => ¬ decide (|fc - a| < |fc - b|)), |x - b| ≤ p.tone_bw_hz := by
    intro x hx
    obtain ⟨hxm, hxp⟩ := List.mem_filter.mp hx
    obtain ⟨g, hgmem, hgc⟩ := List.mem_map.mp hxm
    simp only [decide_eq_true_eq, not_lt] at hxp
    rcases (hall g hgmem).2 with hcl | hcl
    · rw [hgc] at hcl
      exact le_trans hxp hcl
    · rwa [hgc] at hcl
  refine ⟨_, _, rfl, rfl, hlne, hhne, hlowsbound, hhighsbound, ?_, ?_⟩
  · rw [heq, mkWarbleHit_detected, if_neg hlne, if_neg hhne]
  · have hml : a - p.tone_bw_hz ≤ pymedian ((seq.map group_center).filter
        (fun fc => decide (|fc - a| < |fc - b|))) ∧
        pymedian ((seq.map group_center).filter
          (fun fc => decide (|fc - a| < |fc - b|))) ≤ a + p.tone_bw_hz :=
      pymedian_mem_Icc hlne (fun x hx => by
        have := hlowsbound x hx
        rw [abs_sub_le_iff] at this
        exact ⟨by linarith [this.2], by linarith [this.1]⟩)
    have hmh : b - p.tone_bw_hz ≤ pymedian ((seq.map group_center).filter
        (fun fc => ¬ decide (|fc - a| < |fc - b|))) ∧
        pymedian ((seq.map group_center).filter
          (fun fc => ¬ decide (|fc - a| < |fc - b|))) ≤ b + p.tone_bw_hz :=
      pymedian_mem_Icc hhne (fun x hx => by
        have := hhighsbound x hx
        rw [abs_sub_le_iff] at this
        exact ⟨by linarith [this.2], by linarith [this.1]⟩)
    have h1 := le_abs_self (pymedian ((seq.map group_center).filter
        (fun fc => ¬ decide (|fc - a| < |fc - b|))) -
      pymedian ((seq.map group_center).filter (fun fc => decide (|fc - a| < |fc - b|))))
    have h2 := neg_le_abs (pymedian ((seq.map group_center).filter
        (fun fc => ¬ decide (|fc - a| < |fc - b|))) -
      pymedian ((seq.map group_center).filter (fun fc => decide (|fc - a| < |fc - b|))))
    rcases abs_cases (a - b) with ⟨habs, hsign⟩ | ⟨habs, hsign⟩
    · rw [habs] at hsep2
      linarith [hml.1, hml.2, hmh.1, hmh.2]
    · rw [habs] at hsep2
      linarith [hml.1, hml.2, hmh.1, hmh.2]

/-- Closed instance of `warble_hit_run_properties`: the hit on
`warbleClusterInput` has at least the required number of alternations. -/
theorem warble_hit_run_properties_witness :
    warbleClusterParams.min_alternations ≤ warbleClusterHit.alternations :=
  (warble_hit_run_properties warbleClusterHits_eq warbleClusterHit
    (List.mem_singleton.mpr rfl)).1


/-- `twoTonePass` implies stability. -/
theorem twoTonePass_stable {bw : ℚ} {g : FreqGroup} (h : twoTonePass bw g = true) :
    group_is_stable g bw = true := by
  simp only [twoTonePass, Bool.and_eq_true] at h
  exact h.2

/-- `round(x, 3)` is the identity on integer thousandths. -/
theorem round3_int_thousandths (k : ℤ) : round3 ((k : ℚ) / 1000) = (k : ℚ) / 1000 := by
  rw [round3, round_to]
  have h : ((k : ℚ) / 1000) * (10 : ℚ) ^ 3 = (k : ℚ) := by
    norm_num
  rw [h, round_intCast]
  norm_num

/-- Every two-tone hit pairs an A group (the cached candidate or an input
group) with a B group of the input, both passing the acceptance test, with
the emission conditions true and the hit fields drawn from the pair. -/
theorem twoToneScan_hits {p : TwoToneParams} :
    ∀ {l : List FreqGroup} {last : Option FreqGroup} {tid : ℕ} {h : TwoToneHit},
      h ∈ twoToneScan p last tid l →
      ∃ a b, (a ∈ l ∨ last = some a) ∧ b ∈ l ∧
        twoTonePass p.tone_bw_hz a = true ∧ twoTonePass p.tone_bw_hz b = true ∧
        p.min_tone_a_length ≤ a.end_s - a.start_s ∧
        p.min_tone_b_length ≤ b.end_s - b.start_s ∧
        max 0 (b.start_s - a.end_s) ≤ p.max_gap_between_a_b ∧
        separated_enough (group_center a) (group_center b)
          p.min_pair_separation_hz = true ∧
        h.detected = [round1 (group_center a), round1 (group_center b)] ∧
        h.tone_a_length = round3 a.duration_s ∧ h.tone_b_length = round3 b.duration_s ∧
        h.start = a.start_s ∧ h.end_s = b.end_s := by
  intro l
  induction l with
  | nil => intro last tid h hmem; simp [twoToneScan] at hmem
  | cons cur rest ih =>
    intro last tid h hmem
    simp only [twoToneScan] at hmem
    split at hmem
    · obtain ⟨a, b, ha, hb, hrest⟩ := ih hmem
      exact ⟨a, b, ha.imp (List.mem_cons_of_mem cur) id, List.mem_cons_of_mem cur hb, hrest⟩
    next hpasscur =>
      rw [not_not] at hpasscur
      split at hmem
      · -- last = none
        obtain ⟨a, b, ha, hb, hrest⟩ := ih hmem
        refine ⟨a, b, ?_, List.mem_cons_of_mem cur hb, hrest⟩
        rcases ha with ha | ha
        · exact Or.inl (List.mem_cons_of_mem cur ha)
        · split at ha
          · injection ha with ha2
            exact Or.inl (ha2 ▸ List.mem_cons_self cur rest)
          · cases ha
      next la =>
        split at hmem
        · -- cached candidate fails the pass test: replaced
          obtain ⟨a, b, ha, hb, hrest⟩ := ih hmem
          refine ⟨a, b, ?_, List.mem_cons_of_mem cur hb, hrest⟩
          rcases ha with ha | ha
          · exact Or.inl (List.mem_cons_of_mem cur ha)
          · split at ha
            · injection ha with ha2
              exact Or.inl (ha2 ▸ List.mem_cons_self cur rest)
            · cases ha
        next hpassla =>
          rw [not_not] at hpassla
          split at hmem
          next hcond =>
            rcases List.mem_cons.mp hmem with heq | hmem2
            · subst heq
              exact ⟨la, cur, Or.inr rfl, List.mem_cons_self cur rest, hpassla, hpasscur,
                hcond.1, hcond.2.1, hcond.2.2.1, hcond.2.2.2, rfl, rfl, rfl, rfl, rfl⟩
            · obtain ⟨a, b, ha, hb, hrest⟩ := ih hmem2
              refine ⟨a, b, ?_, List.mem_cons_of_mem cur hb, hrest⟩
              rcases ha with ha | ha
              · exact Or.inl (List.mem_cons_of_mem cur ha)
              · cases ha
          · obtain ⟨a, b, ha, hb, hrest⟩ := ih hmem
            refine ⟨a, b, ?_, List.mem_cons_of_mem cur hb, hrest⟩
            rcases ha with ha | ha
            · exact Or.inl (List.mem_cons_of_mem cur ha)
            · split at ha
              · injection ha with ha2
                exact Or.inl (ha2 ▸ List.mem_cons_self cur rest)
              · cases ha

/-- Under time-ordered input, consecutive two-tone hits never overlap: a
hit ends (at its B group's end) no later than the next hit's A group
starts, so a hit's B group is never reused as the next hit's A group. -/
theorem twoToneScan_chain {p : TwoToneParams} :
    ∀ {l : List FreqGroup} {last : Option FreqGroup} {tid : ℕ},
      List.Pairwise (fun g1 g2 => g1.end_s ≤ g2.start_s) l →
      List.Chain' (fun h1 h2 => h1.end_s ≤ h2.start) (twoToneScan p last tid l) := by
  intro l
  induction l with
  | nil => intro last tid _; simp [twoToneScan]
  | cons cur rest ih =>
    intro last tid hord
    have hord2 := List.Pairwise.of_cons hord
    have hcur : ∀ x ∈ rest, cur.end_s ≤ x.start_s := (List.pairwise_cons.mp hord).1
    simp only [twoToneScan]
    split
    · exact ih hord2
    split
    · exact ih hord2
    · split
      · exact ih hord2
      · split
        · refine List.chain'_cons'.mpr ⟨?_, ih hord2⟩
          intro y hy
          obtain ⟨a2, b2, ha2, -, -, -, -, -, -, -, -, -, -, hstart2, -⟩ :=
            twoToneScan_hits (List.mem_of_mem_head? hy)
          rcases ha2 with ha2 | ha2
          · show cur.end_s ≤ y.start
            rw [hstart2]
            exact hcur a2 ha2
          · cases ha2
        · exact ih hord2

/-- C4: for well-formed input groups (duration = end − start, times on the
millisecond grid, time-ordered), every two-tone hit records an A/B pair of
input groups meeting all four thresholds — tone lengths, gap and pair
separation — and consecutive hits never chain: each hit ends no later than
the next begins, so a hit's B group is never the next hit's A group. -/
theorem two_tone_hits_meet_thresholds {p : TwoToneParams} {l : List FreqGroup}
    {hits : List TwoToneHit} (hok : detect_two_tone_tones p l = .ok hits)
    (hdur : ∀ g ∈ l, g.duration_s = g.end_s - g.start_s)
    (hgrid : ∀ g ∈ l, ∃ m n : ℤ, g.start_s = (m : ℚ) / 1000 ∧ g.end_s = (n : ℚ) / 1000)
    (hord : List.Pairwise (fun g1 g2 => g1.end_s ≤ g2.start_s) l) :
    (∀ h ∈ hits, ∃ a b, a ∈ l ∧ b ∈ l ∧
        h.tone_a_length = a.end_s - a.start_s ∧ h.tone_b_length = b.end_s - b.start_s ∧
        p.min_tone_a_length ≤ h.tone_a_length ∧ p.min_tone_b_length ≤ h.tone_b_length ∧
        max 0 (b.start_s - a.end_s) ≤ p.max_gap_between_a_b ∧
        p.min_pair_separation_hz ≤ |group_center a - group_center b| ∧
        h.detected = [round1 (group_center a), round1 (group_center b)] ∧
        h.start = a.start_s ∧ h.end_s = b.end_s) ∧
    List.Chain' (fun h1 h2 => h1.end_s ≤ h2.start) hits := by
  have hhits := detect_two_tone_ok_inv hok
  subst hhits
  refine ⟨?_, twoToneScan_chain hord⟩
  intro h hmem
  obtain ⟨a, b, ha, hb, hpa, hpb, hla, hlb, hgap, hsep, hdet, hta, htb, hstart, hend⟩ :=
    twoToneScan_hits hmem
  have hal : a ∈ l := by
    rcases ha with ha | ha
    · exact ha
    · cases ha
  have hta2 : h.tone_a_length = a.end_s - a.start_s := by
    obtain ⟨m, n, hs, he⟩ := hgrid a hal
    rw [hta, hdur a hal, hs, he]
    rw [show (n : ℚ) / 1000 - (m : ℚ) / 1000 = ((n - m : ℤ) : ℚ) / 1000 by push_cast; ring]
    rw [round3_int_thousandths]
  have htb2 : h.tone_b_length = b.end_s - b.start_s := by
    obtain ⟨m, n, hs, he⟩ := hgrid b hb
    rw [htb, hdur b hb, hs, he]
    rw [show (n : ℚ) / 1000 - (m : ℚ) / 1000 = ((n - m : ℤ) : ℚ) / 1000 by push_cast; ring]
    rw [round3_int_thousandths]
  exact ⟨a, b, hal, hb, hta2, htb2, by rw [hta2]; exact hla, by rw [htb2]; exact hlb,
    hgap, (separated_enough_eq_true_iff.mp hsep).2.2, hdet, hstart, hend⟩

/-- Closed instance of `two_tone_hits_meet_thresholds` on `qcLongInput`. -/
theorem two_tone_hits_meet_thresholds_witness :
    (∀ h ∈ [qcLongTTHit], ∃ a b, a ∈ qcLongInput ∧ b ∈ qcLongInput ∧
        h.tone_a_length = a.end_s - a.start_s ∧ h.tone_b_length = b.end_s - b.start_s ∧
        qcLongTT.min_tone_a_length ≤ h.tone_a_length ∧
        qcLongTT.min_tone_b_length ≤ h.tone_b_length ∧
        max 0 (b.start_s - a.end_s) ≤ qcLongTT.max_gap_between_a_b ∧
        qcLongTT.min_pair_separation_hz ≤ |group_center a - group_center b| ∧
        h.detected = [round1 (group_center a), round1 (group_center b)] ∧
        h.start = a.start_s ∧ h.end_s = b.end_s) ∧
    List.Chain' (fun h1 h2 => h1.end_s ≤ h2.start) [qcLongTTHit] :=
  two_tone_hits_meet_thresholds
    (by rw [detect_two_tone_ok qcLongTT qcLongInput (by norm_num [qcLongTT])
        (by norm_num [qcLongTT]) (by norm_num [qcLongTT]) (by norm_num [qcLongTT])
        (by norm_num [qcLongTT]), qcLongTwoTone_eq])
    (by intro g hg
        simp only [qcLongInput, List.mem_cons, List.not_mem_nil, or_false] at hg
        rcases hg with rfl | rfl | rfl <;> norm_num)
    (by intro g hg
        simp only [qcLongInput, List.mem_cons, List.not_mem_nil, or_false] at hg
        rcases hg with rfl | rfl | rfl
        · exact ⟨0, 2000, by norm_num, by norm_num⟩
        · exact ⟨2000, 3000, by norm_num, by norm_num⟩
        · exact ⟨3000, 6000, by norm_num, by norm_num⟩)
    (by norm_num [qcLongInput, List.pairwise_cons])


theorem flushGroup_start (times : ℕ → ℚ) (step : ℚ) (s e : ℕ) (seq : List ℚ) :
    (flushGroup times step s e seq).start_s = round3 (times s) := rfl

theorem flushGroup_end (times : ℕ → ℚ) (step : ℚ) (s e : ℕ) (seq : List ℚ) :
    (flushGroup times step s e seq).end_s = round3 (times e + step) := rfl

theorem flushGroup_freqs (times : ℕ → ℚ) (step : ℚ) (s e : ℕ) (seq : List ℚ) :
    (flushGroup times step s e seq).freqs = seq := rfl

/-- A frame list whose members all share zero-ness with a reference value is
polarity-pure. -/
theorem polarity_pure {cur : List ℚ} {prev : ℚ} (h : ∀ x ∈ cur, (x = 0 ↔ prev = 0)) :
    (∀ x ∈ cur, x = 0) ∨ (∀ x ∈ cur, x ≠ 0) := by
  by_cases hp : prev = 0
  · exact Or.inl (fun x hx => (h x hx).mpr hp)
  · exact Or.inr (fun x hx h0 => hp ((h x hx).mp h0))

theorem headI_mem_of_ne_nil {l : List ℚ} (h : l ≠ []) : l.headI ∈ l := by
  cases l with
  | nil => exact absurd rfl h
  | cons x xs => exact List.mem_cons_self _ _

/-- Properties of the grouping loop of `match_frequencies`: every emitted
group is nonempty and polarity-pure with grid endpoints, the groups are
time-ordered (each ends exactly where the next starts), and the first
emitted group starts at frame `s`. -/
theorem mfLoop_spec {mt step t0 : ℚ} {times : ℕ → ℚ}
    (ht : ∀ k, times k = t0 + (k : ℚ) * step) :
    ∀ (rest : List ℚ) (prev : ℚ) (i s : ℕ) (cur : List ℚ),
      1 ≤ i → cur ≠ [] → (∀ x ∈ cur, (x = 0 ↔ prev = 0)) →
      (∀ g ∈ mfLoop mt times step prev i s cur rest,
         g.freqs ≠ [] ∧ ((∀ x ∈ g.freqs, x = 0) ∨ (∀ x ∈ g.freqs, x ≠ 0)) ∧
         ∃ s2 e2 : ℕ, g.start_s = round3 (times s2) ∧
           g.end_s = round3 (times e2 + step)) ∧
      List.Chain' (fun g1 g2 => g1.end_s ≤ g2.start_s)
        (mfLoop mt times step prev i s cur rest) ∧
      ∀ x ∈ (mfLoop mt times step prev i s cur rest).head?,
        x.start_s = round3 (times s) := by
  intro rest
  induction rest with
  | nil =>
    intro prev i s cur hi hcne hcpol
    refine ⟨?_, by simp [mfLoop], ?_⟩
    · intro g hg
      simp only [mfLoop, List.mem_singleton] at hg
      subst hg
      exact ⟨hcne, polarity_pure hcpol, s, i - 1, rfl, rfl⟩
    · intro x hx
      simp only [mfLoop, List.head?_cons, Option.mem_def, Option.some.injEq] at hx
      subst hx
      rfl
  | cons f rest2 ih =>
    intro prev i s cur hi hcne hcpol
    have hstep : times (i - 1) + step = times i := by
      rw [ht, ht, Nat.cast_sub hi, Nat.cast_one]
      ring
    simp only [mfLoop]
    split
    · obtain ⟨ihall, ihchain, ihhead⟩ := ih f (i + 1) i [f] (by omega) (by simp) (by simp)
      refine ⟨?_, ?_, ?_⟩
      · intro g hg
        rcases List.mem_cons.mp hg with rfl | hg
        · exact ⟨hcne, polarity_pure hcpol, s, i - 1, rfl, rfl⟩
        · exact ihall g hg
      · refine List.chain'_cons'.mpr ⟨?_, ihchain⟩
        intro y hy
        rw [flushGroup_end, ihhead y hy, hstep]
      · intro x hx
        simp only [List.head?_cons, Option.mem_def, Option.some.injEq] at hx
        subst hx
        rfl
    next hpol =>
      split
      · -- within threshold: extend the current group
        have hfp : (f = 0) ↔ (prev = 0) := decide_eq_decide.mp (not_ne_iff.mp hpol)
        refine ih f (i + 1) s (cur ++ [f]) (by omega) (by simp) ?_
        intro x hx
        rcases List.mem_append.mp hx with hx | hx
        · exact (hcpol x hx).trans hfp.symm
        · simp only [List.mem_singleton] at hx
          subst hx
          exact Iff.rfl
      · obtain ⟨ihall, ihchain, ihhead⟩ := ih f (i + 1) i [f] (by omega) (by simp) (by simp)
        refine ⟨?_, ?_, ?_⟩
        · intro g hg
          rcases List.mem_cons.mp hg with rfl | hg
          · exact ⟨hcne, polarity_pure hcpol, s, i - 1, rfl, rfl⟩
          · exact ihall g hg
        · refine List.chain'_cons'.mpr ⟨?_, ihchain⟩
          intro y hy
          rw [flushGroup_end, ihhead y hy, hstep]
        · intro x hx
          simp only [List.head?_cons, Option.mem_def, Option.some.injEq] at hx
          subst hx
          rfl

/-- `mergeGaps` keeps the groups time-ordered and keeps the head group's
start time. -/
theorem mergeGaps_chain {gt : ℚ} :
    ∀ (n : ℕ) (l : List FreqGroup), l.length ≤ n →
      List.Chain' (fun a b => a.end_s ≤ b.start_s) l →
      List.Chain' (fun a b => a.end_s ≤ b.start_s) (mergeGaps gt l) ∧
      ∀ x ∈ (mergeGaps gt l).head?, ∃ y ∈ l.head?, y.start_s = x.start_s := by
  intro n
  induction n with
  | zero =>
    intro l hl hc
    rw [List.length_eq_zero.mp (Nat.le_zero.mp hl)]
    exact ⟨by simp [mergeGaps], by simp [mergeGaps]⟩
  | succ n ihn =>
    intro l hl hc
    match l with
    | [] => exact ⟨by simp [mergeGaps], by simp [mergeGaps]⟩
    | [g] => exact ⟨by simp [mergeGaps], by simp [mergeGaps]⟩
    | g1 :: g2 :: rest =>
      simp only [mergeGaps]
      split
      · obtain ⟨ihc, ihh⟩ := ihn rest (by simp only [List.length_cons] at hl; omega)
          hc.tail.tail
        refine ⟨List.chain'_cons'.mpr ⟨?_, ihc⟩, ?_⟩
        · intro y hy
          obtain ⟨z, hz, hzs⟩ := ihh y hy
          have h2 : ∀ w ∈ rest.head?, g2.end_s ≤ w.start_s :=
            (List.chain'_cons'.mp hc.tail).1
          show g2.end_s ≤ y.start_s
          rw [← hzs]
          exact h2 z hz
        · intro x hx
          simp only [List.head?_cons, Option.mem_def, Option.some.injEq] at hx
          subst hx
          exact ⟨g1, rfl, rfl⟩
      · obtain ⟨ihc, ihh⟩ := ihn (g2 :: rest)
          (by simp only [List.length_cons] at hl ⊢; omega) hc.tail
        refine ⟨List.chain'_cons'.mpr ⟨?_, ihc⟩, ?_⟩
        · intro y hy
          obtain ⟨z, hz, hzs⟩ := ihh y hy
          simp only [List.head?_cons, Option.mem_def, Option.some.injEq] at hz
          subst hz
          rw [← hzs]
          exact (List.chain'_cons.mp hc).1
        · intro x hx
          simp only [List.head?_cons, Option.mem_def, Option.some.injEq] at hx
          subst hx
          exact ⟨g1, rfl, rfl⟩

/-- `mergeGaps` preserves nonemptiness, polarity purity and grid endpoints
of every group. -/
theorem mergeGaps_all {gt step : ℚ} {times : ℕ → ℚ} :
    ∀ (n : ℕ) (l : List FreqGroup), l.length ≤ n →
      (∀ g ∈ l, g.freqs ≠ [] ∧ ((∀ x ∈ g.freqs, x = 0) ∨ (∀ x ∈ g.freqs, x ≠ 0)) ∧
        ∃ s2 e2 : ℕ, g.start_s = round3 (times s2) ∧
          g.end_s = round3 (times e2 + step)) →
      ∀ g ∈ mergeGaps gt l,
        g.freqs ≠ [] ∧ ((∀ x ∈ g.freqs, x = 0) ∨ (∀ x ∈ g.freqs, x ≠ 0)) ∧
        ∃ s2 e2 : ℕ, g.start_s = round3 (times s2) ∧
          g.end_s = round3 (times e2 + step) := by
  intro n
  induction n with
  | zero =>
    intro l hl _ g hg
    rw [List.length_eq_zero.mp (Nat.le_zero.mp hl)] at hg
    simp [mergeGaps] at hg
  | succ n ihn =>
    intro l hl hall g hg
    match l with
    | [] => simp [mergeGaps] at hg
    | [g1] =>
      simp only [mergeGaps, List.mem_singleton] at hg
      subst hg
      exact hall _ (List.mem_singleton.mpr rfl)
    | g1 :: g2 :: rest =>
      obtain ⟨h1ne, h1p, s1, e1, h1s, h1e⟩ := hall g1 (List.mem_cons_self _ _)
      obtain ⟨h2ne, h2p, s2, e2, h2s, h2e⟩ :=
        hall g2 (List.mem_cons_of_mem _ (List.mem_cons_self _ _))
      simp only [mergeGaps] at hg
      split at hg
      next hcond =>
        rcases List.mem_cons.mp hg with rfl | hg
        · refine ⟨?_, ?_, s1, e2, h1s, h2e⟩
          · intro hnil
            exact h1ne (List.append_eq_nil.mp hnil).1
          · rcases hcond.1 with ⟨hz1, hz2⟩ | ⟨hz1, hz2⟩
            · refine Or.inl ?_
              have ha1 : ∀ x ∈ g1.freqs, x = 0 := by
                rcases h1p with h | h
                · exact h
                · exact absurd hz1 (h _ (headI_mem_of_ne_nil h1ne))
              have ha2 : ∀ x ∈ g2.freqs, x = 0 := by
                rcases h2p with h | h
                · exact h
                · exact absurd hz2 (h _ (headI_mem_of_ne_nil h2ne))
              intro x hx
              rcases List.mem_append.mp hx with hx | hx
              · exact ha1 x hx
              · exact ha2 x hx
            · refine Or.inr ?_
              have ha1 : ∀ x ∈ g1.freqs, x ≠ 0 := by
                rcases h1p with h | h
                · exact absurd (h _ (headI_mem_of_ne_nil h1ne)) hz1
                · exact h
              have ha2 : ∀ x ∈ g2.freqs, x ≠ 0 := by
                rcases h2p with h | h
                · exact absurd (h _ (headI_mem_of_ne_nil h2ne)) hz2
                · exact h
              intro x hx
              rcases List.mem_append.mp hx with hx | hx
              · exact ha1 x hx
              · exact ha2 x hx
        · refine ihn rest (by simp only [List.length_cons] at hl; omega) ?_ g hg
          intro g3 hg3
          exact hall g3 (List.mem_cons_of_mem _ (List.mem_cons_of_mem _ hg3))
      · rcases List.mem_cons.mp hg with rfl | hg
        · exact ⟨h1ne, h1p, s1, e1, h1s, h1e⟩
        · refine ihn (g2 :: rest) (by simp only [List.length_cons] at hl ⊢; omega) ?_ g hg
          intro g3 hg3
          exact hall g3 (List.mem_cons_of_mem _ hg3)

/-- C7: on an affine frame-time grid, every group emitted by
`match_frequencies` (also after optional short-gap merging) is nonempty and
polarity-pure (all frames zero, or all nonzero), starts and ends on the
frame grid with the end one frame step past the last frame's center, and
the groups are time-ordered: each group ends no later than the next
starts. -/
theorem match_frequencies_group_invariants {mt step t0 ms : ℚ} {dfs : List ℚ}
    {times : ℕ → ℚ} (ht : ∀ k, times k = t0 + (k : ℚ) * step) :
    (∀ g ∈ match_frequencies mt dfs times step ms,
       g.freqs ≠ [] ∧ ((∀ x ∈ g.freqs, x = 0) ∨ (∀ x ∈ g.freqs, x ≠ 0)) ∧
       ∃ s2 e2 : ℕ, g.start_s = round3 (times s2) ∧
         g.end_s = round3 (times e2 + step)) ∧
    List.Chain' (fun g1 g2 => g1.end_s ≤ g2.start_s)
      (match_frequencies mt dfs times step ms) := by
  rw [match_frequencies]
  cases hm : dfs.map round1 with
  | nil => exact ⟨by simp, by simp⟩
  | cons f0 rest =>
    obtain ⟨hall, hchain, -⟩ := mfLoop_spec ht rest f0 1 0 [f0] (le_refl 1)
      (by simp) (by simp)
    simp only []
    split
    · refine ⟨fun g hg => ?_, ?_⟩
      · exact mergeGaps_all (mfLoop mt times step f0 1 0 [f0] rest).length _ (le_refl _)
          hall g hg
      · exact (mergeGaps_chain (mfLoop mt times step f0 1 0 [f0] rest).length _ (le_refl _)
          hchain).1
    · exact ⟨hall, hchain⟩

/-- Closed instance of `match_frequencies_group_invariants` on the frames
1000 Hz, 0 (silence), 1500 Hz at a 0.5 s hop. -/
theorem match_frequencies_group_invariants_witness :
    (∀ g ∈ match_frequencies (5/2) [1000, 0, 1500] (fun k => (k : ℚ) * (1/2)) (1/2) 0,
       g.freqs ≠ [] ∧ ((∀ x ∈ g.freqs, x = 0) ∨ (∀ x ∈ g.freqs, x ≠ 0)) ∧
       ∃ s2 e2 : ℕ, g.start_s = round3 ((s2 : ℚ) * (1/2)) ∧
         g.end_s = round3 ((e2 : ℚ) * (1/2) + 1/2)) ∧
    List.Chain' (fun g1 g2 => g1.end_s ≤ g2.start_s)
      (match_frequencies (5/2) [1000, 0, 1500] (fun k => (k : ℚ) * (1/2)) (1/2) 0) :=
  match_frequencies_group_invariants
    (show ∀ k : ℕ, (k : ℚ) * (1/2) = 0 + (k : ℚ) * (1/2) from fun k => by ring)


/-- C10: the Two-Tone, Long and Warble detectors only report hits whose
constituent groups are stable, hence have at least two strictly positive
per-frame frequencies; a group with fewer than two positive frames — in
particular a single-frame tone group — never appears in any such
detection. -/
theorem stable_detectors_exclude_sparse_groups {l : List FreqGroup}
    {pt : TwoToneParams} {pl : LongToneParams} {pw : WarbleParams}
    {th : List TwoToneHit} {lh : List LongToneHit} {wh : List WarbleHit}
    (hok1 : detect_two_tone_tones pt l = .ok th)
    (hok2 : detect_long_tones pl l = .ok lh)
    (hok3 : detect_warble_tones pw l = .ok wh) :
    (∀ h ∈ th, ∃ a b, a ∈ l ∧ b ∈ l ∧ h.start = a.start_s ∧ h.end_s = b.end_s ∧
        2 ≤ (a.freqs.filter (fun f => decide (0 < f))).length ∧
        2 ≤ (b.freqs.filter (fun f => decide (0 < f))).length) ∧
    (∀ h ∈ lh, ∃ g, g ∈ l ∧ h.start = g.start_s ∧ h.end_s = g.end_s ∧
        2 ≤ (g.freqs.filter (fun f => decide (0 < f))).length) ∧
    (∀ h ∈ wh, ∃ seq, seq ≠ [] ∧ (∀ g ∈ seq, g ∈ l) ∧ h.start = seq.headI.start_s ∧
        h.alternations = seq.length ∧
        ∀ g ∈ seq, 2 ≤ (g.freqs.filter (fun f => decide (0 < f))).length) := by
  refine ⟨?_, ?_, ?_⟩
  · have hhits := detect_two_tone_ok_inv hok1
    subst hhits
    intro h hmem
    obtain ⟨a, b, ha, hb, hpa, hpb, -, -, -, -, -, -, -, hstart, hend⟩ :=
      twoToneScan_hits hmem
    have hal : a ∈ l := by
      rcases ha with ha | ha
      · exact ha
      · cases ha
    exact ⟨a, b, hal, hb, hstart, hend,
      group_is_stable_posCount (twoTonePass_stable hpa),
      group_is_stable_posCount (twoTonePass_stable hpb)⟩
  · have hhits := detect_long_ok_inv hok2
    subst hhits
    intro h hmem
    obtain ⟨g, hg, hstart, hend, -, -, hstab, -, -⟩ := longToneLoop_mem hmem
    exact ⟨g, hg, hstart, hend, group_is_stable_posCount hstab⟩
  · obtain ⟨hhits, -, -, hbw, -⟩ := detect_warble_ok_inv hok3
    subst hhits
    intro h hmem
    obtain ⟨i, seq, a, b, heq, hmeml, hlen, hinv⟩ :=
      warbleOuter_spec pw hbw (l.length + 1) l 1 h hmem
    rcases hinv with ⟨-, htc⟩ | ⟨g0, -, htc, -⟩ | ⟨a2, b2, htc, hne, -, -, -, -, -, hall, -⟩
    · cases htc
    · cases htc
    · exact ⟨seq, hne, hmeml, by rw [heq]; rfl, by rw [heq]; rfl,
        fun g hg => group_is_stable_posCount (hall g hg).1⟩

/-- Closed instance of `stable_detectors_exclude_sparse_groups` on
`qcLongInput`. -/
theorem stable_detectors_exclude_sparse_groups_witness :
    (∀ h ∈ [qcLongTTHit], ∃ a b, a ∈ qcLongInput ∧ b ∈ qcLongInput ∧
        h.start = a.start_s ∧ h.end_s = b.end_s ∧
        2 ≤ (a.freqs.filter (fun f => decide (0 < f))).length ∧
        2 ≤ (b.freqs.filter (fun f => decide (0 < f))).length) ∧
    (∀ h ∈ longToneLoop qcLongLT 0 qcLongInput, ∃ g, g ∈ qcLongInput ∧
        h.start = g.start_s ∧ h.end_s = g.end_s ∧
        2 ≤ (g.freqs.filter (fun f => decide (0 < f))).length) ∧
    (∀ h ∈ warbleOuter warbleClusterParams (qcLongInput.length + 1) 1 qcLongInput,
        ∃ seq, seq ≠ [] ∧ (∀ g ∈ seq, g ∈ qcLongInput) ∧
        h.start = seq.headI.start_s ∧ h.alternations = seq.length ∧
        ∀ g ∈ seq, 2 ≤ (g.freqs.filter (fun f => decide (0 < f))).length) :=
  stable_detectors_exclude_sparse_groups
    (by rw [detect_two_tone_ok qcLongTT qcLongInput (by norm_num [qcLongTT])
        (by norm_num [qcLongTT]) (by norm_num [qcLongTT]) (by norm_num [qcLongTT])
        (by norm_num [qcLongTT]), qcLongTwoTone_eq])
    (detect_long_ok qcLongLT qcLongInput (by norm_num [qcLongLT]) (by norm_num [qcLongLT]))
    (detect_warble_ok warbleClusterParams qcLongInput (by norm_num [warbleClusterParams])
      (by norm_num [warbleClusterParams]) (by norm_num [warbleClusterParams])
      (by norm_num [warbleClusterParams]))

end Icad
